import Mathlib

/-!
Shallow embedding of the `extfg-sigma` Sigma wire codec
(`src/lib.rs`, `src/util.rs`, `src/codec.rs`) and proofs about it.

Byte strings (`Bytes`, `BytesMut`, `&[u8]`, and the bytes of a Rust
`String`/`&str`) are modelled as `List Nat`, one natural per byte.
Machine integers (`u8`, `u16`, `u32`, `u64`, `usize`) are naturals; the
one place the Rust code relies on wrap-around (`data.len() as u16` in
`encode_field_to_buf`) is modelled with an explicit `% 65536`.
Fallible Rust functions returning `Result<_, Error>` become
`Except Error _`.  The `String` payloads of the Rust error variants only
carry diagnostic messages, so `Error` keeps the variant (the kind) and
drops the message text.
-/

/-- Error kinds of `enum Error` (src/lib.rs:16-31), message payloads dropped. -/
inductive Error where
  | Bounds
  | IncorrectTag
  | IncorrectFieldData
  | MissingField
  | IncorrectData
  deriving DecidableEq, Repr

/-- `bytes_split_to` (src/util.rs:13-25): split off the first `n` bytes,
failing with `Bounds` when the buffer is shorter; returns
(split-off bytes, remaining bytes). -/
def bytes_split_to (l : List Nat) (n : Nat) : Except Error (List Nat × List Nat) :=
  if l.length < n then .error .Bounds else .ok (l.take n, l.drop n)

/-- `decode_bcd_x2` (src/util.rs:34-52).  On a byte `v`, `v >> 4` is
`v / 16` and `v & 0x0f` is `v % 16`. -/
def decode_bcd_x2 (v : Nat) : Except Error Nat :=
  if 9 < v / 16 then .error .Bounds
  else if 9 < v % 16 then .error .Bounds
  else .ok (v / 16 * 10 + v % 16)

/-- `decode_bcd_x4` (src/util.rs:54-58). -/
def decode_bcd_x4 (b0 b1 : Nat) : Except Error Nat :=
  match decode_bcd_x2 b0 with
  | .error e => .error e
  | .ok l =>
    match decode_bcd_x2 b1 with
    | .error e => .error e
    | .ok r => .ok (l * 100 + r)

/-- `encode_bcd_x2` (src/util.rs:60-69); `(v / 10) << 4` is `v / 10 * 16`. -/
def encode_bcd_x2 (v : Nat) : Except Error Nat :=
  if 99 < v then .error .Bounds else .ok (v / 10 * 16 + v % 10)

/-- `encode_bcd_x4` (src/util.rs:71-88). -/
def encode_bcd_x4 (v : Nat) : Except Error (List Nat) :=
  if 9999 < v then .error .Bounds
  else .ok [v / 1000 % 10 * 16 + v / 100 % 10, v / 10 % 10 * 16 + v % 10]

/-- `enum Tag` (src/util.rs:90-95). -/
inductive Tag where
  | Regular (i : Nat)
  | Iso (i : Nat)
  | IsoSubfield (i : Nat) (si : Nat)
  deriving DecidableEq, Repr

/-- `Tag::encode_to_buf` (src/util.rs:98-117); returns the bytes the Rust
code appends to `buf` (`b"T"` = 84, `b"I"` = 73, `b"S"` = 83). -/
def Tag.encode_to_buf : Tag → Except Error (List Nat)
  | .Regular i =>
    match encode_bcd_x4 i with
    | .error e => .error e
    | .ok b => .ok (84 :: b ++ [0])
  | .Iso i =>
    match encode_bcd_x4 i with
    | .error e => .error e
    | .ok b => .ok (73 :: b ++ [0])
  | .IsoSubfield i si =>
    match encode_bcd_x4 i with
    | .error e => .error e
    | .ok b =>
      match encode_bcd_x2 si with
      | .error e => .error e
      | .ok sb => .ok (83 :: b ++ [sb])

/-- `Tag::decode` (src/util.rs:119-131).  Note the BCD digits of bytes
1-3 are decoded (and may fail with `Bounds`) before the kind byte is
examined. -/
def Tag.decode (data : List Nat) : Except Error Tag :=
  if data.length < 4 then .error .IncorrectTag
  else
    match decode_bcd_x4 (data.getD 1 0) (data.getD 2 0) with
    | .error e => .error e
    | .ok i =>
      match decode_bcd_x2 (data.getD 3 0) with
      | .error e => .error e
      | .ok si =>
        match data.getD 0 0 with
        | 84 => .ok (.Regular i)
        | 73 => .ok (.Iso i)
        | 83 => .ok (.IsoSubfield i si)
        | _ => .error .IncorrectTag

/-! ### Decimal digit strings

`decDigits n` is the ASCII decimal representation of `n` as produced by
Rust's `format!("{}", n)`; `padMin w fill l` pads `l` on the left to a
minimum width `w`, which is what a `{:0w}` format width does. -/

def decDigitsCore (n : Nat) (acc : List Nat) : List Nat :=
  if n < 10 then (48 + n) :: acc
  else decDigitsCore (n / 10) ((48 + n % 10) :: acc)
  termination_by n
  decreasing_by exact Nat.div_lt_self (by omega) (by omega)

def decDigits (n : Nat) : List Nat := decDigitsCore n []

def padMin (w fill : Nat) (l : List Nat) : List Nat :=
  List.replicate (w - l.length) fill ++ l

/-! ### ASCII-decimal parsing

`parse_ascii_bytes_lossy!` (src/util.rs:7-11) is
`String::from_utf8_lossy(bytes).parse::<uN>()`.  Rust's `parse` for an
unsigned integer accepts an optional leading `'+'` followed by one or
more ASCII decimal digits, and fails on overflow.  Any byte that is not
part of that pattern makes `parse` fail — in particular every byte
`>= 0x80`, whether it survives the lossy conversion as part of a
multi-byte character or is replaced by U+FFFD, yields a non-digit
character.  So on the bytes level the composition is exactly: strip one
optional `'+'` (43), then require a non-empty all-digit tail whose value
is below the integer type's bound. -/

def isDigitB (b : Nat) : Bool := 48 ≤ b && b ≤ 57

def digitsToVal (l : List Nat) : Nat := l.foldl (fun a b => a * 10 + (b - 48)) 0

def parseUnsignedBytes (bound : Nat) (l : List Nat) : Option Nat :=
  let t := if l.headD 0 = 43 then l.tail else l
  if t.isEmpty then none
  else if t.all isDigitB then
    if digitsToVal t < bound then some (digitsToVal t) else none
  else none

/-! ### Lemmas: BCD primitives -/

theorem decode_bcd_x2_encode (v b : Nat) (h : encode_bcd_x2 v = .ok b) :
    decode_bcd_x2 b = .ok v := by
  unfold encode_bcd_x2 at h
  split at h
  · exact absurd h (by simp)
  · simp only [Except.ok.injEq] at h
    subst h
    unfold decode_bcd_x2
    have h10 : v % 10 < 10 := Nat.mod_lt _ (by omega)
    split
    · omega
    · split
      · omega
      · congr 1
        omega

theorem decode_bcd_x4_encode (v : Nat) (b0 b1 : Nat)
    (h : encode_bcd_x4 v = .ok [b0, b1]) : decode_bcd_x4 b0 b1 = .ok v := by
  unfold encode_bcd_x4 at h
  split at h
  · exact absurd h (by simp)
  · rename_i hv
    simp only [Except.ok.injEq, List.cons.injEq, and_true] at h
    obtain ⟨h0, h1⟩ := h
    subst h0
    subst h1
    unfold decode_bcd_x4 decode_bcd_x2
    have d1 : (v / 1000 % 10 * 16 + v / 100 % 10) / 16 = v / 1000 % 10 := by omega
    have d2 : (v / 1000 % 10 * 16 + v / 100 % 10) % 16 = v / 100 % 10 := by omega
    have d3 : (v / 10 % 10 * 16 + v % 10) / 16 = v / 10 % 10 := by omega
    have d4 : (v / 10 % 10 * 16 + v % 10) % 16 = v % 10 := by omega
    simp only [d1, d2, d3, d4]
    rw [if_neg (by omega), if_neg (by omega), if_neg (by omega), if_neg (by omega)]
    simp only []
    congr 1
    omega

theorem encode_bcd_x4_ok (v : Nat) (h : v ≤ 9999) :
    encode_bcd_x4 v = .ok [v / 1000 % 10 * 16 + v / 100 % 10, v / 10 % 10 * 16 + v % 10] := by
  unfold encode_bcd_x4
  split
  · omega
  · rfl

theorem encode_bcd_x2_ok (v : Nat) (h : v ≤ 99) :
    encode_bcd_x2 v = .ok (v / 10 * 16 + v % 10) := by
  unfold encode_bcd_x2
  split
  · omega
  · rfl

/-! ### Lemmas: decimal digits -/

theorem decDigitsCore_unfold (n : Nat) (acc : List Nat) :
    decDigitsCore n acc
      = if n < 10 then (48 + n) :: acc else decDigitsCore (n / 10) ((48 + n % 10) :: acc) := by
  rw [decDigitsCore]

theorem decDigitsCore_append (n : Nat) :
    ∀ acc, decDigitsCore n acc = decDigitsCore n [] ++ acc := by
  induction n using Nat.strong_induction_on with
  | _ n ih =>
    intro acc
    by_cases h : n < 10
    · rw [decDigitsCore_unfold n acc, decDigitsCore_unfold n [], if_pos h, if_pos h]
      simp
    · rw [decDigitsCore_unfold n acc, decDigitsCore_unfold n [], if_neg h, if_neg h,
        ih (n / 10) (Nat.div_lt_self (by omega) (by omega)) ((48 + n % 10) :: acc),
        ih (n / 10) (Nat.div_lt_self (by omega) (by omega)) ((48 + n % 10) :: [])]
      simp

theorem decDigits_small (n : Nat) (h : n < 10) : decDigits n = [48 + n] := by
  unfold decDigits
  rw [decDigitsCore_unfold, if_pos h]

theorem decDigits_large (n : Nat) (h : 10 ≤ n) :
    decDigits n = decDigits (n / 10) ++ [48 + n % 10] := by
  unfold decDigits
  rw [decDigitsCore_unfold n [], if_neg (by omega), decDigitsCore_append]

theorem decDigits_ne_nil (n : Nat) : decDigits n ≠ [] := by
  by_cases h : n < 10
  · rw [decDigits_small n h]; simp
  · rw [decDigits_large n (by omega)]; simp

theorem decDigits_mem_digit (n : Nat) : ∀ b ∈ decDigits n, 48 ≤ b ∧ b ≤ 57 := by
  induction n using Nat.strong_induction_on with
  | _ n ih =>
    intro b hb
    by_cases h : n < 10
    · rw [decDigits_small n h] at hb
      simp at hb
      omega
    · rw [decDigits_large n (by omega)] at hb
      rw [List.mem_append] at hb
      rcases hb with hb | hb
      · exact ih (n / 10) (Nat.div_lt_self (by omega) (by omega)) b hb
      · simp at hb
        have : n % 10 < 10 := Nat.mod_lt _ (by omega)
        omega

theorem digitsToVal_decDigits_aux (n : Nat) :
    ∀ a, List.foldl (fun a b => a * 10 + (b - 48)) a (decDigits n)
      = a * 10 ^ (decDigits n).length + n := by
  induction n using Nat.strong_induction_on with
  | _ n ih =>
    intro a
    by_cases h : n < 10
    · rw [decDigits_small n h]
      simp
    · rw [decDigits_large n (by omega), List.foldl_append,
        ih (n / 10) (Nat.div_lt_self (by omega) (by omega)) a]
      simp [List.length_append, pow_succ]
      ring_nf
      omega

theorem digitsToVal_decDigits (n : Nat) : digitsToVal (decDigits n) = n := by
  unfold digitsToVal
  rw [digitsToVal_decDigits_aux n 0]
  simp

theorem digitsToVal_pad (k n : Nat) :
    digitsToVal (List.replicate k 48 ++ decDigits n) = n := by
  unfold digitsToVal
  rw [List.foldl_append]
  have hz : List.foldl (fun a b => a * 10 + (b - 48)) 0 (List.replicate k 48) = 0 := by
    induction k with
    | zero => rfl
    | succ k ihk => simpa [List.replicate_succ] using ihk
  rw [hz]
  have := digitsToVal_decDigits_aux n 0
  simpa using this

theorem decDigits_length_le (n k : Nat) (hk : 1 ≤ k) (h : n < 10 ^ k) :
    (decDigits n).length ≤ k := by
  induction k generalizing n with
  | zero => omega
  | succ k ihk =>
    by_cases hn : n < 10
    · rw [decDigits_small n hn]
      simp only [List.length_cons, List.length_nil]
      omega
    · have hk1 : 1 ≤ k := by
        rcases Nat.eq_zero_or_pos k with h0 | h1
        · exfalso
          subst h0
          rw [pow_one] at h
          omega
        · exact h1
      rw [decDigits_large n (by omega)]
      have hp : (10 : Nat) ^ (k + 1) = 10 ^ k * 10 := pow_succ 10 k
      have hdiv : n / 10 < 10 ^ k := by
        rw [Nat.div_lt_iff_lt_mul (by omega : 0 < 10)]
        omega
      have := ihk (n / 10) hk1 hdiv
      simp only [List.length_append, List.length_cons, List.length_nil]
      omega

theorem decDigits_length_ge (k : Nat) : ∀ n, 10 ^ k ≤ n → k + 1 ≤ (decDigits n).length := by
  induction k with
  | zero =>
    intro n _
    cases h : decDigits n with
    | nil => exact absurd h (decDigits_ne_nil n)
    | cons a l => simp
  | succ k ihk =>
    intro n hn
    have hp : (10 : Nat) ^ (k + 1) = 10 ^ k * 10 := pow_succ 10 k
    have hpk : 1 ≤ (10 : Nat) ^ k := Nat.one_le_pow _ _ (by omega)
    have h10 : 10 ≤ n := by omega
    rw [decDigits_large n h10]
    have hdiv : 10 ^ k ≤ n / 10 := by
      rw [Nat.le_div_iff_mul_le (by omega : 0 < 10)]
      omega
    have := ihk (n / 10) hdiv
    simp only [List.length_append, List.length_cons, List.length_nil]
    omega

theorem padMin_length (w fill : Nat) (l : List Nat) :
    (padMin w fill l).length = max w l.length := by
  unfold padMin
  simp [List.length_append]
  omega

/-! ### Lemmas: ASCII-decimal parsing -/

theorem parseUnsignedBytes_all_digits (bound : Nat) (l : List Nat) (hne : l ≠ [])
    (hall : l.all isDigitB = true) (hb : digitsToVal l < bound) :
    parseUnsignedBytes bound l = some (digitsToVal l) := by
  unfold parseUnsignedBytes
  have hhead : l.headD 0 ≠ 43 := by
    cases l with
    | nil => exact absurd rfl hne
    | cons a r =>
      have := List.all_eq_true.mp hall a (by simp)
      unfold isDigitB at this
      simp only [List.headD_cons]
      simp at this
      omega
  rw [if_neg hhead]
  rw [if_neg (by simpa [List.isEmpty_iff] using hne), if_pos hall, if_pos hb]

theorem parseUnsignedBytes_pad_decDigits (bound w n : Nat) (h : n < bound) :
    parseUnsignedBytes bound (padMin w 48 (decDigits n)) = some n := by
  unfold padMin
  have hall : (List.replicate (w - (decDigits n).length) 48 ++ decDigits n).all isDigitB = true := by
    rw [List.all_eq_true]
    intro b hb
    rw [List.mem_append] at hb
    unfold isDigitB
    rcases hb with hb | hb
    · rw [List.eq_of_mem_replicate hb]
      simp
    · have := decDigits_mem_digit n b hb
      simp
      omega
  have hne : (List.replicate (w - (decDigits n).length) 48 ++ decDigits n) ≠ [] := by
    simp [decDigits_ne_nil n]
  rw [parseUnsignedBytes_all_digits bound _ hne hall (by rw [digitsToVal_pad]; exact h),
    digitsToVal_pad]

/-! ### UTF-8

`String::from_utf8_lossy` decodes the byte sequence, replacing each
maximal invalid subpart with U+FFFD (the behaviour of Rust's std, per
the Unicode "maximal subpart" recommendation), and re-encodes.
`utf8Dec` produces the list of decoded code points, `utf8Enc` encodes a
list of code points (scalar values), and `utf8Lossy` is their
composition on bytes.  `String::from_utf8` succeeds exactly on valid
UTF-8, i.e. exactly when the lossy conversion is the identity (a
replacement always changes the bytes: the replaced subpart is invalid
while the replacement `EF BF BD` is valid), so validity is defined as
`utf8Lossy l == l`. -/

def utf8IsCont (b : Nat) : Bool := 128 ≤ b && b ≤ 191

def utf8Dec : List Nat → List Nat
  | [] => []
  | b :: r =>
    if b ≤ 127 then b :: utf8Dec r
    else if 194 ≤ b && b ≤ 223 then
      match r with
      | [] => [65533]
      | b1 :: r1 =>
        if utf8IsCont b1 then ((b - 192) * 64 + (b1 - 128)) :: utf8Dec r1
        else 65533 :: utf8Dec (b1 :: r1)
    else if 224 ≤ b && b ≤ 239 then
      match r with
      | [] => [65533]
      | b1 :: r1 =>
        if (b = 224 && 160 ≤ b1 && b1 ≤ 191)
            || (225 ≤ b && b ≤ 236 && utf8IsCont b1)
            || (b = 237 && 128 ≤ b1 && b1 ≤ 159)
            || (238 ≤ b && utf8IsCont b1) then
          match r1 with
          | [] => [65533]
          | b2 :: r2 =>
            if utf8IsCont b2 then
              ((b - 224) * 4096 + (b1 - 128) * 64 + (b2 - 128)) :: utf8Dec r2
            else 65533 :: utf8Dec (b2 :: r2)
        else 65533 :: utf8Dec (b1 :: r1)
    else if 240 ≤ b && b ≤ 244 then
      match r with
      | [] => [65533]
      | b1 :: r1 =>
        if (b = 240 && 144 ≤ b1 && b1 ≤ 191)
            || (241 ≤ b && b ≤ 243 && utf8IsCont b1)
            || (b = 244 && 128 ≤ b1 && b1 ≤ 143) then
          match r1 with
          | [] => [65533]
          | b2 :: r2 =>
            if utf8IsCont b2 then
              match r2 with
              | [] => [65533]
              | b3 :: r3 =>
                if utf8IsCont b3 then
                  ((b - 240) * 262144 + (b1 - 128) * 4096 + (b2 - 128) * 64 + (b3 - 128))
                    :: utf8Dec r3
                else 65533 :: utf8Dec (b3 :: r3)
            else 65533 :: utf8Dec (b2 :: r2)
        else 65533 :: utf8Dec (b1 :: r1)
    else 65533 :: utf8Dec r

def utf8EncChar (c : Nat) : List Nat :=
  if c ≤ 127 then [c]
  else if c ≤ 2047 then [192 + c / 64, 128 + c % 64]
  else if c ≤ 65535 then [224 + c / 4096, 128 + c / 64 % 64, 128 + c % 64]
  else [240 + c / 262144, 128 + c / 4096 % 64, 128 + c / 64 % 64, 128 + c % 64]

def utf8Enc (l : List Nat) : List Nat := (l.map utf8EncChar).flatten

def utf8Lossy (l : List Nat) : List Nat := utf8Enc (utf8Dec l)

def isValidUtf8 (l : List Nat) : Bool := utf8Lossy l == l

/-- Code points of Rust's `char::is_whitespace` (the Unicode
`White_Space` property). -/
def wsCp (c : Nat) : Bool :=
  c = 9 || c = 10 || c = 11 || c = 12 || c = 13 || c = 32 || c = 133 || c = 160
    || c = 5760 || (8192 ≤ c && c ≤ 8202) || c = 8232 || c = 8233 || c = 8239
    || c = 8287 || c = 12288

/-- `str::trim`: drop whitespace characters from both ends.  Modelled on
the code-point sequence of the (always valid UTF-8) input string, then
re-encoded. -/
def strTrim (s : List Nat) : List Nat :=
  utf8Enc (((((utf8Dec s).dropWhile wsCp).reverse).dropWhile wsCp).reverse)

/-! ### Lemmas: UTF-8 on ASCII bytes -/

theorem utf8Dec_cons_ascii (b : Nat) (r : List Nat) (h : b ≤ 127) :
    utf8Dec (b :: r) = b :: utf8Dec r := by
  conv_lhs => rw [utf8Dec.eq_def]
  simp [h]

theorem utf8Dec_ascii (l : List Nat) (h : ∀ b ∈ l, b ≤ 127) : utf8Dec l = l := by
  induction l with
  | nil => rfl
  | cons b r ih =>
    rw [utf8Dec_cons_ascii b r (h b (by simp))]
    rw [ih (fun x hx => h x (by simp [hx]))]

theorem utf8Enc_ascii (l : List Nat) (h : ∀ c ∈ l, c ≤ 127) : utf8Enc l = l := by
  induction l with
  | nil => rfl
  | cons c r ih =>
    unfold utf8Enc at *
    simp only [List.map_cons, List.flatten_cons]
    rw [ih (fun x hx => h x (by simp [hx]))]
    unfold utf8EncChar
    rw [if_pos (h c (by simp))]
    rfl

theorem utf8Lossy_ascii (l : List Nat) (h : ∀ b ∈ l, b ≤ 127) : utf8Lossy l = l := by
  unfold utf8Lossy
  rw [utf8Dec_ascii l h, utf8Enc_ascii l h]

theorem isValidUtf8_ascii (l : List Nat) (h : ∀ b ∈ l, b ≤ 127) : isValidUtf8 l = true := by
  unfold isValidUtf8
  rw [utf8Lossy_ascii l h]
  simp

theorem isValidUtf8_lossy_eq (l : List Nat) (h : isValidUtf8 l = true) : utf8Lossy l = l := by
  unfold isValidUtf8 at h
  exact eq_of_beq h

theorem dropWhile_no_ws (l : List Nat) (h : ∀ c ∈ l, wsCp c = false) :
    l.dropWhile wsCp = l := by
  cases l with
  | nil => rfl
  | cons a r =>
    rw [List.dropWhile_cons_of_neg]
    simp [h a (by simp)]

theorem strTrim_digits (l : List Nat) (h : ∀ b ∈ l, 48 ≤ b ∧ b ≤ 57) : strTrim l = l := by
  unfold strTrim
  have ha : ∀ b ∈ l, b ≤ 127 := fun b hb => by have := h b hb; omega
  rw [utf8Dec_ascii l ha]
  have hw : ∀ c ∈ l, wsCp c = false := by
    intro c hc
    have := h c hc
    unfold wsCp
    simp
    omega
  rw [dropWhile_no_ws l hw]
  rw [dropWhile_no_ws l.reverse (fun c hc => hw c (List.mem_reverse.mp hc))]
  rw [List.reverse_reverse]
  exact utf8Enc_ascii l ha

/-! ### Tag textual form -/

/-- `Tag::from_str` (src/util.rs:133-171).  The argument is the byte
sequence of a `&str`; `parse::<u16>` / `parse::<u8>` bound the value by
`65536` / `256`. -/
def Tag.from_str (s : List Nat) : Except Error Tag :=
  match s.head? with
  | none => .error .IncorrectTag
  | some c =>
    if (c = 84 ∨ c = 116) ∧ s.length = 5 then
      match parseUnsignedBytes 65536 ((s.drop 1).take 4) with
      | some v => .ok (.Regular v)
      | none => .error .IncorrectTag
    else if (c = 73 ∨ c = 105) ∧ s.length = 4 then
      match parseUnsignedBytes 65536 ((s.drop 1).take 3) with
      | some v => .ok (.Iso v)
      | none => .error .IncorrectTag
    else if (c = 83 ∨ c = 115) ∧ s.length = 7 then
      match parseUnsignedBytes 65536 ((s.drop 1).take 4) with
      | some v =>
        match parseUnsignedBytes 256 ((s.drop 5).take 2) with
        | some sv => .ok (.IsoSubfield v sv)
        | none => .error .IncorrectTag
      | none => .error .IncorrectTag
    else .error .IncorrectTag

/-- `impl Display for Tag` (src/util.rs:174-182): `T{:04}` / `i{:03}` /
`s{:04}{:02}` (85 = `T`, 105 = `i`, 115 = `s`; a `{:0w}` width is a
minimum width, wider numbers keep all their digits). -/
def Tag.display : Tag → List Nat
  | .Regular i => 84 :: padMin 4 48 (decDigits i)
  | .Iso i => 105 :: padMin 3 48 (decDigits i)
  | .IsoSubfield i si => 115 :: (padMin 4 48 (decDigits i) ++ padMin 2 48 (decDigits si))

/-! ### Field codec -/

/-- `encode_field_to_buf` (src/util.rs:184-189); returns the appended
bytes.  `data.len() as u16` truncates the payload length modulo 2^16. -/
def encode_field_to_buf (tag : Tag) (data : List Nat) : Except Error (List Nat) :=
  match tag.encode_to_buf with
  | .error e => .error e
  | .ok tb =>
    match encode_bcd_x4 (data.length % 65536) with
    | .error e => .error e
    | .ok lb => .ok (tb ++ lb ++ data)

/-- `decode_field_from_cursor` (src/util.rs:191-200); returns the tag,
the field payload and the remaining bytes of the cursor. -/
def decode_field_from_cursor (buf : List Nat) : Except Error (Tag × List Nat × List Nat) :=
  match bytes_split_to buf 4 with
  | .error e => .error e
  | .ok (tagB, b1) =>
    match Tag.decode tagB with
    | .error e => .error e
    | .ok tag =>
      match bytes_split_to b1 2 with
      | .error e => .error e
      | .ok (lenB, b2) =>
        match decode_bcd_x4 (lenB.getD 0 0) (lenB.getD 1 0) with
        | .error e => .error e
        | .ok len =>
          match bytes_split_to b2 len with
          | .error e => .error e
          | .ok (data, rest) => .ok (tag, data, rest)

theorem bytes_split_to_eq (l : List Nat) (n : Nat) (a b : List Nat)
    (h : bytes_split_to l n = .ok (a, b)) :
    a = l.take n ∧ b = l.drop n ∧ n ≤ l.length := by
  unfold bytes_split_to at h
  split at h
  · exact absurd h (by simp)
  · rename_i hlen
    simp only [Except.ok.injEq, Prod.mk.injEq] at h
    exact ⟨h.1.symm, h.2.symm, by omega⟩

theorem decode_field_from_cursor_rest_lt (buf : List Nat) (t : Tag) (d rest : List Nat)
    (h : decode_field_from_cursor buf = .ok (t, d, rest)) : rest.length < buf.length := by
  unfold decode_field_from_cursor at h
  split at h
  · exact absurd h (by simp)
  · rename_i tagB b1 heq1
    split at h
    · exact absurd h (by simp)
    · split at h
      · exact absurd h (by simp)
      · rename_i lenB b2 heq2
        split at h
        · exact absurd h (by simp)
        · split at h
          · exact absurd h (by simp)
          · rename_i data rest' heq3
            simp only [Except.ok.injEq, Prod.mk.injEq] at h
            obtain ⟨-, -, hrest⟩ := h
            subst hrest
            obtain ⟨-, hb1, h4⟩ := bytes_split_to_eq _ _ _ _ heq1
            obtain ⟨-, hb2, h2⟩ := bytes_split_to_eq _ _ _ _ heq2
            obtain ⟨-, hrest', hl⟩ := bytes_split_to_eq _ _ _ _ heq3
            subst hrest'
            subst hb2
            subst hb1
            simp only [List.length_drop] at *
            omega

/-! ### Message model: shared pieces -/

/-- `validate_mti` (src/lib.rs:42-59): exactly 4 ASCII decimal digits. -/
def validate_mti (s : List Nat) : Except Error Unit :=
  if s.length ≠ 4 then .error .IncorrectFieldData
  else if s.all (fun b => 48 ≤ b && b ≤ 57) then .ok ()
  else .error .IncorrectFieldData

/-- `validate_source` (src/lib.rs:61-66): byte length exactly 1. -/
def validate_source (s : List Nat) : Except Error Unit :=
  if s.length ≠ 1 then .error .IncorrectFieldData else .ok ()

/-- `validate_saf` (src/lib.rs:68-73): exactly `"Y"` (89) or `"N"` (78). -/
def validate_saf (s : List Nat) : Except Error Unit :=
  if s = [89] ∨ s = [78] then .ok () else .error .IncorrectFieldData

/-- `enum IsoFieldData` (src/lib.rs:75-79): a `String` payload (valid
UTF-8) or raw bytes. -/
inductive IsoFieldData where
  | String (s : List Nat)
  | Raw (b : List Nat)
  deriving DecidableEq, Repr

/-- `IsoFieldData::as_bytes` (src/lib.rs:97-102). -/
def IsoFieldData.as_bytes : IsoFieldData → List Nat
  | .String x => x
  | .Raw x => x

/-- `IsoFieldData::from_bytes` (src/lib.rs:104-107):
`String::from_utf8` succeeds exactly on valid UTF-8. -/
def IsoFieldData.from_bytes (b : List Nat) : IsoFieldData :=
  if isValidUtf8 b then .String b else .Raw b

/-! ### Ordered maps

`BTreeMap<K, V>` iterates in ascending key order; it is modelled as an
association list kept sorted by strictly ascending key, with
`mapInsertBy` the insert-or-replace operation. -/

def mapInsertBy {κ β : Type} [DecidableEq κ] (lt : κ → κ → Bool) (k : κ) (v : β) :
    List (κ × β) → List (κ × β)
  | [] => [(k, v)]
  | (k', v') :: t =>
    if lt k k' then (k, v) :: (k', v') :: t
    else if k = k' then (k, v) :: t
    else (k', v') :: mapInsertBy lt k v t

def natLtB (a b : Nat) : Bool := a < b

def pairLtB (a b : Nat × Nat) : Bool := a.1 < b.1 || (a.1 = b.1 && a.2 < b.2)

/-! ### SigmaRequest -/

/-- `struct SigmaRequest` (src/lib.rs:140-149).  The `BTreeMap`s are
sorted association lists. -/
structure SigmaRequest where
  saf : List Nat
  source : List Nat
  mti : List Nat
  auth_serno : Nat
  tags : List (Nat × List Nat)
  iso_fields : List (Nat × IsoFieldData)
  iso_subfields : List ((Nat × Nat) × IsoFieldData)
  deriving DecidableEq, Repr

/-- `SigmaRequest::set_saf` (src/lib.rs:323-327): result of the call and
the request afterwards (`&mut self` becomes explicit state passing). -/
def SigmaRequest.set_saf (r : SigmaRequest) (v : List Nat) :
    Except Error Unit × SigmaRequest :=
  match validate_saf v with
  | .ok _ => (.ok (), { r with saf := v })
  | .error e => (.error e, r)

/-- `SigmaRequest::set_source` (src/lib.rs:333-337). -/
def SigmaRequest.set_source (r : SigmaRequest) (v : List Nat) :
    Except Error Unit × SigmaRequest :=
  match validate_source v with
  | .ok _ => (.ok (), { r with source := v })
  | .error e => (.error e, r)

/-- `SigmaRequest::set_mti` (src/lib.rs:343-347). -/
def SigmaRequest.set_mti (r : SigmaRequest) (v : List Nat) :
    Except Error Unit × SigmaRequest :=
  match validate_mti v with
  | .ok _ => (.ok (), { r with mti := v })
  | .error e => (.error e, r)

/-- The 10-byte `auth_serno` header field written by both encoders
(src/lib.rs:254-258 and 498-502): `format!("{:010}", n)` when
`n <= 9999999999`, otherwise the first 10 bytes of `format!("{}", n)`. -/
def sernoBytes (n : Nat) : List Nat :=
  if 9999999999 < n then (decDigits n).take 10 else padMin 10 48 (decDigits n)

/-- `format!("{:05}", n)`: ASCII decimal padded to a minimum width 5. -/
def asciiLen5 (n : Nat) : List Nat := padMin 5 48 (decDigits n)

/-- The sequence of `encode_field_to_buf` calls made by
`SigmaRequest::encode` (src/lib.rs:260-270): all `tags` entries in
ascending key order, then all `iso_fields`, then all `iso_subfields`. -/
def SigmaRequest.fieldList (r : SigmaRequest) : List (Tag × List Nat) :=
  r.tags.map (fun kv => (Tag.Regular kv.1, kv.2))
    ++ r.iso_fields.map (fun kv => (Tag.Iso kv.1, kv.2.as_bytes))
    ++ r.iso_subfields.map (fun kv => (Tag.IsoSubfield kv.1.1 kv.1.2, kv.2.as_bytes))

/-- Concatenated encoding of a list of fields, propagating the first
field-encoder error. -/
def encodeFieldsList : List (Tag × List Nat) → Except Error (List Nat)
  | [] => .ok []
  | (t, d) :: rest =>
    match encode_field_to_buf t d with
    | .error e => .error e
    | .ok fb =>
      match encodeFieldsList rest with
      | .error e => .error e
      | .ok rb => .ok (fb ++ rb)

/-- Encoding-failure outcomes of `SigmaRequest::encode` /
`SigmaResponse::encode`: a propagated `Error`, or the panic of
`buf[0..5].copy_from_slice(format!("{:05}", msg_len).as_bytes())`
(src/lib.rs:272-273, 515-516) when the formatted length does not fit the
5-byte slice. -/
inductive EncErr where
  | err (e : Error)
  | oob
  deriving DecidableEq, Repr

/-- Body of `SigmaRequest::encode` (src/lib.rs:247-275): everything
after the 5-byte length. -/
def SigmaRequest.encodeBody (r : SigmaRequest) : Except Error (List Nat) :=
  match encodeFieldsList r.fieldList with
  | .error e => .error e
  | .ok fb => .ok (r.saf ++ r.source ++ r.mti ++ sernoBytes r.auth_serno ++ fb)

/-- `SigmaRequest::encode` (src/lib.rs:247-275).  The 5-byte length
write panics (`EncErr.oob`) when `format!("{:05}", msg_len)` is longer
than 5 bytes, i.e. when the body exceeds 99999 bytes. -/
def SigmaRequest.encode (r : SigmaRequest) : Except EncErr (List Nat) :=
  match r.encodeBody with
  | .error e => .error (.err e)
  | .ok body =>
    if (asciiLen5 body.length).length = 5 then .ok (asciiLen5 body.length ++ body)
    else .error .oob

/-- The per-field state update of the decode loop of
`SigmaRequest::decode` (src/lib.rs:298-314). -/
def applyReqField (tag : Tag) (d : List Nat) (req : SigmaRequest) : SigmaRequest :=
  match tag with
  | .Regular i => { req with tags := mapInsertBy natLtB i (utf8Lossy d) req.tags }
  | .Iso i => { req with iso_fields := mapInsertBy natLtB i (IsoFieldData.from_bytes d) req.iso_fields }
  | .IsoSubfield i si =>
    { req with iso_subfields := mapInsertBy pairLtB (i, si) (IsoFieldData.from_bytes d) req.iso_subfields }

/-- The `while !data.is_empty()` field loop of `SigmaRequest::decode`
(src/lib.rs:298-314). -/
def SigmaRequest.decodeLoop (body : List Nat) (req : SigmaRequest) :
    Except Error SigmaRequest :=
  if body.isEmpty then .ok req
  else
    match h : decode_field_from_cursor body with
    | .error e => .error e
    | .ok (t, d, rest) => SigmaRequest.decodeLoop rest (applyReqField t d req)
  termination_by body.length
  decreasing_by exact decode_field_from_cursor_rest_lt body t d rest h

/-- `SigmaRequest::decode` (src/lib.rs:277-317). -/
def SigmaRequest.decode (data : List Nat) : Except Error SigmaRequest :=
  match bytes_split_to data 5 with
  | .error e => .error e
  | .ok (lenB, r1) =>
    match parseUnsignedBytes (2 ^ 64) (utf8Lossy lenB) with
    | none => .error .IncorrectFieldData
    | some msgLen =>
      match bytes_split_to r1 msgLen with
      | .error e => .error e
      | .ok (body, _) =>
        match bytes_split_to body 1 with
        | .error e => .error e
        | .ok (safB, b1) =>
          match validate_saf (utf8Lossy safB) with
          | .error e => .error e
          | .ok _ =>
            match bytes_split_to b1 1 with
            | .error e => .error e
            | .ok (srcB, b2) =>
              match validate_source (utf8Lossy srcB) with
              | .error e => .error e
              | .ok _ =>
                match bytes_split_to b2 4 with
                | .error e => .error e
                | .ok (mtiB, b3) =>
                  match validate_mti (utf8Lossy mtiB) with
                  | .error e => .error e
                  | .ok _ =>
                    match bytes_split_to b3 10 with
                    | .error e => .error e
                    | .ok (serB, b4) =>
                      match parseUnsignedBytes (2 ^ 64) (strTrim (utf8Lossy serB)) with
                      | none => .error .IncorrectFieldData
                      | some serno =>
                        SigmaRequest.decodeLoop b4
                          ⟨utf8Lossy safB, utf8Lossy srcB, utf8Lossy mtiB, serno, [], [], []⟩

/-! ### FeeData -/

/-- `struct FeeData` (src/lib.rs:350-355). -/
structure FeeData where
  reason : Nat
  currency : Nat
  amount : Nat
  deriving DecidableEq, Repr

/-- `FeeData::from_slice` (src/lib.rs:358-386): 4 ASCII digits of
`reason`, 3 of `currency`, the rest `amount`; requires length >= 8. -/
def FeeData.from_slice (data : List Nat) : Except Error FeeData :=
  if 8 ≤ data.length then
    match parseUnsignedBytes 65536 (utf8Lossy (data.take 4)) with
    | none => .error .IncorrectFieldData
    | some reason =>
      match parseUnsignedBytes 65536 (utf8Lossy ((data.drop 4).take 3)) with
      | none => .error .IncorrectFieldData
      | some currency =>
        match parseUnsignedBytes (2 ^ 64) (utf8Lossy (data.drop 7)) with
        | none => .error .IncorrectFieldData
        | some amount => .ok ⟨reason, currency, amount⟩
  else .error .IncorrectData

/-- `FeeData::encode` (src/lib.rs:388-408).  `format!("{:<04}", v)`:
the `0` flag makes `pad_integral` zero-pad on the left (sign-aware zero
padding overrides the explicit alignment for integers). -/
def FeeData.encode (f : FeeData) : Except Error (List Nat) :=
  if 9999 < f.reason then .error .Bounds
  else if 999 < f.currency then .error .Bounds
  else .ok (padMin 4 48 (decDigits f.reason) ++ padMin 3 48 (decDigits f.currency)
    ++ decDigits f.amount)

/-! ### SigmaResponse -/

/-- `struct SigmaResponse` (src/lib.rs:411-420). -/
structure SigmaResponse where
  mti : List Nat
  auth_serno : Nat
  reason : Nat
  fees : List FeeData
  adata : Option (List Nat)
  deriving DecidableEq, Repr

/-- `SigmaResponse::set_mti` (src/lib.rs:487-491). -/
def SigmaResponse.set_mti (s : SigmaResponse) (v : List Nat) :
    Except Error Unit × SigmaResponse :=
  match validate_mti v with
  | .ok _ => (.ok (), { s with mti := v })
  | .error e => (.error e, s)

/-- The per-field state update of the decode loop of
`SigmaResponse::decode` (src/lib.rs:453-478): `Regular(31)` sets
`reason`, `Regular(32)` appends a fee, `Regular(48)` sets `adata`,
everything else is ignored. -/
def applyRespField (tag : Tag) (d : List Nat) (resp : SigmaResponse) :
    Except Error SigmaResponse :=
  match tag with
  | .Regular i =>
    if i = 31 then
      match parseUnsignedBytes (2 ^ 32) (utf8Lossy d) with
      | some v => .ok { resp with reason := v }
      | none => .error .IncorrectFieldData
    else if i = 32 then
      match FeeData.from_slice d with
      | .ok fee => .ok { resp with fees := resp.fees ++ [fee] }
      | .error e => .error e
    else if i = 48 then .ok { resp with adata := some (utf8Lossy d) }
    else .ok resp
  | _ => .ok resp

/-- The `while !data.is_empty()` field loop of `SigmaResponse::decode`. -/
def SigmaResponse.decodeLoop (body : List Nat) (resp : SigmaResponse) :
    Except Error SigmaResponse :=
  if body.isEmpty then .ok resp
  else
    match h : decode_field_from_cursor body with
    | .error e => .error e
    | .ok (t, d, rest) =>
      match applyRespField t d resp with
      | .error e => .error e
      | .ok resp' => SigmaResponse.decodeLoop rest resp'
  termination_by body.length
  decreasing_by exact decode_field_from_cursor_rest_lt body t d rest h

/-- `SigmaResponse::decode` (src/lib.rs:434-481). -/
def SigmaResponse.decode (data : List Nat) : Except Error SigmaResponse :=
  match bytes_split_to data 5 with
  | .error e => .error e
  | .ok (lenB, r1) =>
    match parseUnsignedBytes (2 ^ 64) (utf8Lossy lenB) with
    | none => .error .IncorrectFieldData
    | some msgLen =>
      match bytes_split_to r1 msgLen with
      | .error e => .error e
      | .ok (body, _) =>
        match bytes_split_to body 4 with
        | .error e => .error e
        | .ok (mtiB, b1) =>
          match validate_mti (utf8Lossy mtiB) with
          | .error e => .error e
          | .ok _ =>
            match bytes_split_to b1 10 with
            | .error e => .error e
            | .ok (serB, b2) =>
              match parseUnsignedBytes (2 ^ 64) (strTrim (utf8Lossy serB)) with
              | none => .error .IncorrectFieldData
              | some serno =>
                SigmaResponse.decodeLoop b2 ⟨utf8Lossy mtiB, serno, 0, [], none⟩

/-- The fee fields written by `SigmaResponse::encode`
(src/lib.rs:508-510). -/
def encodeFeesList : List FeeData → Except Error (List Nat)
  | [] => .ok []
  | f :: rest =>
    match f.encode with
    | .error e => .error e
    | .ok fb =>
      match encode_field_to_buf (Tag.Regular 32) fb with
      | .error e => .error e
      | .ok ff =>
        match encodeFeesList rest with
        | .error e => .error e
        | .ok rb => .ok (ff ++ rb)

/-- Body of `SigmaResponse::encode` (src/lib.rs:493-518). -/
def SigmaResponse.encodeBody (s : SigmaResponse) : Except Error (List Nat) :=
  match encode_field_to_buf (Tag.Regular 31) (decDigits s.reason) with
  | .error e => .error e
  | .ok reasonF =>
    match encodeFeesList s.fees with
    | .error e => .error e
    | .ok feesF =>
      match (match s.adata with
        | some ad => encode_field_to_buf (Tag.Regular 48) ad
        | none => .ok []) with
      | .error e => .error e
      | .ok adataF =>
        .ok (s.mti ++ sernoBytes s.auth_serno ++ reasonF ++ feesF ++ adataF)

/-- `SigmaResponse::encode` (src/lib.rs:493-518). -/
def SigmaResponse.encode (s : SigmaResponse) : Except EncErr (List Nat) :=
  match s.encodeBody with
  | .error e => .error (.err e)
  | .ok body =>
    if (asciiLen5 body.length).length = 5 then .ok (asciiLen5 body.length ++ body)
    else .error .oob

/-! ### Stream framing codec -/

/-- `ClientProtocolError` (src/codec.rs:7-17), payloads dropped.  The
`StdIoError` variant can only be produced by the transport, never by
`decode` itself. -/
inductive ProtoErr where
  | sigma (e : Error)
  | wrongLenUtf8
  | wrongLenInt
  deriving DecidableEq, Repr

/-- `<SigmaClientProtocol as Decoder>::decode` (src/codec.rs:42-64).
Returns the call's result together with the buffer afterwards.
`std::str::from_utf8` fails on invalid UTF-8; `parse::<usize>` on the
resulting characters succeeds exactly when the bytes are an optional
`'+'` followed by decimal digits (usize is 64-bit). -/
def protocolDecode (src : List Nat) : Except ProtoErr (Option SigmaResponse) × List Nat :=
  if src.length < 5 then (.ok none, src)
  else if ¬ isValidUtf8 (src.take 5) then (.error .wrongLenUtf8, src)
  else
    match parseUnsignedBytes (2 ^ 64) (src.take 5) with
    | none => (.error .wrongLenInt, src)
    | some msgLen =>
      if src.length < msgLen + 5 then (.ok none, src)
      else
        match SigmaResponse.decode (src.take (msgLen + 5)) with
        | .ok resp => (.ok (some resp), src.drop (msgLen + 5))
        | .error e => (.error (.sigma e), src.drop (msgLen + 5))

/-! ### Generic helpers -/

instance {ε α : Type} [DecidableEq ε] [DecidableEq α] : DecidableEq (Except ε α) := fun x y =>
  match x, y with
  | .ok a, .ok b => if h : a = b then isTrue (by rw [h]) else isFalse (by simp [h])
  | .error a, .error b => if h : a = b then isTrue (by rw [h]) else isFalse (by simp [h])
  | .ok _, .error _ => isFalse (by simp)
  | .error _, .ok _ => isFalse (by simp)

theorem bytes_split_to_append (a b : List Nat) (n : Nat) (h : a.length = n) :
    bytes_split_to (a ++ b) n = .ok (a, b) := by
  unfold bytes_split_to
  rw [if_neg (by simp [List.length_append]; omega)]
  rw [List.take_left' h, List.drop_left' h]

theorem bytes_split_to_all (l : List Nat) : bytes_split_to l l.length = .ok (l, []) := by
  unfold bytes_split_to
  rw [if_neg (by omega)]
  rw [List.take_length, List.drop_length]

/-! ### Tag and field round trips -/

theorem Tag.decode_encode (t : Tag) (tb : List Nat) (h : t.encode_to_buf = .ok tb) :
    Tag.decode tb = .ok t ∧ tb.length = 4 := by
  cases t with
  | Regular i =>
    simp only [Tag.encode_to_buf] at h
    split at h
    · exact absurd h (by simp)
    · rename_i b heq
      simp only [Except.ok.injEq] at h
      subst h
      have hb : b = [i / 1000 % 10 * 16 + i / 100 % 10, i / 10 % 10 * 16 + i % 10] := by
        unfold encode_bcd_x4 at heq
        split at heq
        · exact absurd heq (by simp)
        · simpa using heq.symm
      subst hb
      refine ⟨?_, by simp⟩
      unfold Tag.decode
      rw [if_neg (by simp)]
      simp only [List.getD]
      have hx4 : decode_bcd_x4 (i / 1000 % 10 * 16 + i / 100 % 10) (i / 10 % 10 * 16 + i % 10)
          = .ok i := by
        apply decode_bcd_x4_encode
        unfold encode_bcd_x4 at heq ⊢
        split at heq
        · exact absurd heq (by simp)
        · rename_i hle
          rw [if_neg hle]
      simp [hx4]
      rfl
  | Iso i =>
    simp only [Tag.encode_to_buf] at h
    split at h
    · exact absurd h (by simp)
    · rename_i b heq
      simp only [Except.ok.injEq] at h
      subst h
      have hb : b = [i / 1000 % 10 * 16 + i / 100 % 10, i / 10 % 10 * 16 + i % 10] := by
        unfold encode_bcd_x4 at heq
        split at heq
        · exact absurd heq (by simp)
        · simpa using heq.symm
      subst hb
      refine ⟨?_, by simp⟩
      unfold Tag.decode
      rw [if_neg (by simp)]
      simp only [List.getD]
      have hx4 : decode_bcd_x4 (i / 1000 % 10 * 16 + i / 100 % 10) (i / 10 % 10 * 16 + i % 10)
          = .ok i := by
        apply decode_bcd_x4_encode
        unfold encode_bcd_x4 at heq ⊢
        split at heq
        · exact absurd heq (by simp)
        · rename_i hle
          rw [if_neg hle]
      simp [hx4]
      rfl
  | IsoSubfield i si =>
    simp only [Tag.encode_to_buf] at h
    split at h
    · exact absurd h (by simp)
    · rename_i b heq
      split at h
      · exact absurd h (by simp)
      · rename_i sb heqs
        simp only [Except.ok.injEq] at h
        subst h
        have hb : b = [i / 1000 % 10 * 16 + i / 100 % 10, i / 10 % 10 * 16 + i % 10] := by
          unfold encode_bcd_x4 at heq
          split at heq
          · exact absurd heq (by simp)
          · simpa using heq.symm
        subst hb
        refine ⟨?_, by simp⟩
        unfold Tag.decode
        rw [if_neg (by simp)]
        simp only [List.getD]
        have hx4 : decode_bcd_x4 (i / 1000 % 10 * 16 + i / 100 % 10) (i / 10 % 10 * 16 + i % 10)
            = .ok i := by
          apply decode_bcd_x4_encode
          unfold encode_bcd_x4 at heq ⊢
          split at heq
          · exact absurd heq (by simp)
          · rename_i hle
            rw [if_neg hle]
        have hx2 : decode_bcd_x2 sb = .ok si := decode_bcd_x2_encode si sb heqs
        simp [hx4, hx2]

theorem encode_field_to_buf_ok (t : Tag) (d tb : List Nat) (ht : t.encode_to_buf = .ok tb)
    (hlen : d.length ≤ 9999) :
    encode_field_to_buf t d
      = .ok (tb ++ [d.length / 1000 % 10 * 16 + d.length / 100 % 10,
          d.length / 10 % 10 * 16 + d.length % 10] ++ d) := by
  unfold encode_field_to_buf
  rw [ht]
  have hm : d.length % 65536 = d.length := Nat.mod_eq_of_lt (by omega)
  rw [hm, encode_bcd_x4_ok d.length hlen]

theorem decode_field_encode (t : Tag) (d fb rest : List Nat) (hlen : d.length ≤ 9999)
    (h : encode_field_to_buf t d = .ok fb) :
    decode_field_from_cursor (fb ++ rest) = .ok (t, d, rest) ∧ 6 ≤ fb.length := by
  unfold encode_field_to_buf at h
  split at h
  · exact absurd h (by simp)
  · rename_i tb ht
    split at h
    · exact absurd h (by simp)
    · rename_i lb hlb
      simp only [Except.ok.injEq] at h
      subst h
      obtain ⟨hdec, ht4⟩ := Tag.decode_encode t tb ht
      have hm : d.length % 65536 = d.length := Nat.mod_eq_of_lt (by omega)
      rw [hm] at hlb
      have hlb2 : lb = [d.length / 1000 % 10 * 16 + d.length / 100 % 10,
          d.length / 10 % 10 * 16 + d.length % 10] := by
        rw [encode_bcd_x4_ok d.length hlen] at hlb
        simpa using hlb.symm
      have hlb4 : lb.length = 2 := by rw [hlb2]; rfl
      have hx4 : decode_bcd_x4 (lb.getD 0 0) (lb.getD 1 0) = .ok d.length := by
        rw [hlb2]
        exact decode_bcd_x4_encode d.length _ _ (encode_bcd_x4_ok d.length hlen)
      constructor
      · unfold decode_field_from_cursor
        have hassoc : (tb ++ lb ++ d) ++ rest = tb ++ (lb ++ (d ++ rest)) := by
          simp [List.append_assoc]
        rw [hassoc]
        simp only [bytes_split_to_append tb (lb ++ (d ++ rest)) 4 ht4, hdec,
          bytes_split_to_append lb (d ++ rest) 2 hlb4, hx4,
          bytes_split_to_append d rest d.length rfl]
      · rw [hlb2]
        simp only [List.length_append, List.length_cons, List.length_nil, ht4]
        omega

/-! ### Decode-loop unfolding -/

theorem SigmaRequest.decodeLoop_nil (req : SigmaRequest) :
    SigmaRequest.decodeLoop [] req = .ok req := by
  rw [SigmaRequest.decodeLoop]
  rfl

theorem SigmaRequest.decodeLoop_ok_step (body : List Nat) (req : SigmaRequest)
    (t : Tag) (d rest : List Nat) (hne : body ≠ [])
    (heq : decode_field_from_cursor body = .ok (t, d, rest)) :
    SigmaRequest.decodeLoop body req
      = SigmaRequest.decodeLoop rest (applyReqField t d req) := by
  rw [SigmaRequest.decodeLoop]
  rw [if_neg (by simpa [List.isEmpty_iff] using hne)]
  split
  · rename_i e h
    rw [heq] at h
    cases h
  · rename_i t' d' rest' h
    rw [heq] at h
    injection h with h
    injection h with h1 h
    injection h with h2 h3
    subst h1
    subst h2
    subst h3
    rfl

theorem SigmaResponse.decodeLoopR_nil (resp : SigmaResponse) :
    SigmaResponse.decodeLoop [] resp = .ok resp := by
  rw [SigmaResponse.decodeLoop]
  rfl

theorem SigmaResponse.decodeLoopR_ok_step (body : List Nat) (resp resp' : SigmaResponse)
    (t : Tag) (d rest : List Nat) (hne : body ≠ [])
    (heq : decode_field_from_cursor body = .ok (t, d, rest))
    (ha : applyRespField t d resp = .ok resp') :
    SigmaResponse.decodeLoop body resp = SigmaResponse.decodeLoop rest resp' := by
  rw [SigmaResponse.decodeLoop]
  rw [if_neg (by simpa [List.isEmpty_iff] using hne)]
  split
  · rename_i e h
    rw [heq] at h
    cases h
  · rename_i t' d' rest' h
    rw [heq] at h
    injection h with h
    injection h with h1 h
    injection h with h2 h3
    subst h1
    subst h2
    subst h3
    rw [ha]

/-! ### Sorted-map insertion lemmas -/

theorem mapInsertBy_append {κ β : Type} [DecidableEq κ] (lt : κ → κ → Bool) (k : κ) (v : β)
    (m : List (κ × β)) (h : ∀ p ∈ m, lt p.1 k = true ∧ lt k p.1 = false ∧ k ≠ p.1) :
    mapInsertBy lt k v m = m ++ [(k, v)] := by
  induction m with
  | nil => rfl
  | cons p t ih =>
    obtain ⟨k', v'⟩ := p
    obtain ⟨-, hlt, hne⟩ := h (k', v') (by simp)
    unfold mapInsertBy
    rw [if_neg (by simp [hlt]), if_neg hne]
    rw [ih (fun q hq => h q (by simp [hq]))]
    simp

theorem foldl_mapInsertBy {κ β : Type} [DecidableEq κ] (lt : κ → κ → Bool)
    (fs : List (κ × β))
    (hp : fs.Pairwise (fun a b => lt a.1 b.1 = true ∧ lt b.1 a.1 = false ∧ b.1 ≠ a.1)) :
    ∀ acc, (∀ a ∈ acc, ∀ b ∈ fs, lt a.1 b.1 = true ∧ lt b.1 a.1 = false ∧ b.1 ≠ a.1) →
      fs.foldl (fun m kv => mapInsertBy lt kv.1 kv.2 m) acc = acc ++ fs := by
  induction fs with
  | nil =>
    intro acc _
    simp
  | cons p rest ih =>
    intro acc hacc
    obtain ⟨k, v⟩ := p
    rw [List.pairwise_cons] at hp
    obtain ⟨hk, hp'⟩ := hp
    rw [List.foldl_cons]
    have hstep : mapInsertBy lt k v acc = acc ++ [(k, v)] := by
      apply mapInsertBy_append
      intro q hq
      exact hacc q hq (k, v) (by simp)
    rw [hstep]
    rw [ih hp' (acc ++ [(k, v)]) ?_]
    · simp
    · intro a ha b hb
      rw [List.mem_append] at ha
      rcases ha with ha | ha
      · exact hacc a ha b (by simp [hb])
      · simp at ha
        subst ha
        exact hk b hb

/-- Sortedness hypotheses written with plain `<` imply the form
`foldl_mapInsertBy` needs, for the two key orders in use. -/
theorem pairwise_natLt (l : List (Nat × List Nat))
    (h : l.Pairwise (fun a b => a.1 < b.1)) :
    l.Pairwise (fun a b : Nat × List Nat =>
      natLtB a.1 b.1 = true ∧ natLtB b.1 a.1 = false ∧ b.1 ≠ a.1) := by
  refine h.imp ?_
  intro a b hab
  unfold natLtB
  refine ⟨by simpa using hab, by simp; omega, by omega⟩

theorem pairwise_natLt' (l : List (Nat × IsoFieldData))
    (h : l.Pairwise (fun a b => a.1 < b.1)) :
    l.Pairwise (fun a b : Nat × IsoFieldData =>
      natLtB a.1 b.1 = true ∧ natLtB b.1 a.1 = false ∧ b.1 ≠ a.1) := by
  refine h.imp ?_
  intro a b hab
  unfold natLtB
  refine ⟨by simpa using hab, by simp; omega, by omega⟩

theorem pairwise_pairLt (l : List ((Nat × Nat) × IsoFieldData))
    (h : l.Pairwise (fun a b => a.1.1 < b.1.1 ∨ (a.1.1 = b.1.1 ∧ a.1.2 < b.1.2))) :
    l.Pairwise (fun a b : (Nat × Nat) × IsoFieldData =>
      pairLtB a.1 b.1 = true ∧ pairLtB b.1 a.1 = false ∧ b.1 ≠ a.1) := by
  refine h.imp ?_
  intro a b hab
  refine ⟨?_, ?_, ?_⟩
  · simp only [pairLtB, Bool.or_eq_true, Bool.and_eq_true, decide_eq_true_eq]
    omega
  · simp only [pairLtB, Bool.or_eq_false_iff, Bool.and_eq_false_iff,
      decide_eq_false_iff_not]
    omega
  · intro hc
    rw [hc] at hab
    omega

/-! ### Request decode loop vs encoded fields -/

theorem SigmaRequest.decodeLoop_encodeFields (fs : List (Tag × List Nat)) :
    ∀ fb req, (∀ p ∈ fs, p.2.length ≤ 9999) → encodeFieldsList fs = .ok fb →
      SigmaRequest.decodeLoop fb req
        = .ok (fs.foldl (fun q p => applyReqField p.1 p.2 q) req) := by
  induction fs with
  | nil =>
    intro fb req _ h
    unfold encodeFieldsList at h
    simp only [Except.ok.injEq] at h
    subst h
    rw [SigmaRequest.decodeLoop_nil]
    rfl
  | cons p rest ih =>
    intro fb req h9 h
    obtain ⟨t, d⟩ := p
    simp only [encodeFieldsList] at h
    split at h
    · exact absurd h (by simp)
    · rename_i fb1 heq1
      split at h
      · exact absurd h (by simp)
      · rename_i fb2 heq2
        simp only [Except.ok.injEq] at h
        subst h
        obtain ⟨hdec, h6⟩ := decode_field_encode t d fb1 fb2 (h9 (t, d) (by simp)) heq1
        have hne : fb1 ++ fb2 ≠ [] := by
          have : (fb1 ++ fb2).length ≥ 6 := by
            simp only [List.length_append]
            omega
          intro hc
          rw [hc] at this
          simp at this
        rw [SigmaRequest.decodeLoop_ok_step (fb1 ++ fb2) req t d fb2 hne hdec]
        rw [ih fb2 (applyReqField t d req) (fun q hq => h9 q (by simp [hq])) heq2]
        rfl

/-! ### Folding the request decode loop over each tag group -/

theorem foldl_applyReq_regular (l : List (Nat × List Nat)) :
    ∀ req : SigmaRequest,
      (l.map (fun kv => (Tag.Regular kv.1, kv.2))).foldl (fun q p => applyReqField p.1 p.2 q) req
        = { req with
            tags := l.foldl (fun m kv => mapInsertBy natLtB kv.1 (utf8Lossy kv.2) m) req.tags } := by
  induction l with
  | nil =>
    intro req
    rfl
  | cons kv t ih =>
    intro req
    simp only [List.map_cons, List.foldl_cons]
    rw [ih]
    rfl

theorem foldl_applyReq_iso (l : List (Nat × IsoFieldData)) :
    ∀ req : SigmaRequest,
      (l.map (fun kv => (Tag.Iso kv.1, kv.2.as_bytes))).foldl
          (fun q p => applyReqField p.1 p.2 q) req
        = { req with
            iso_fields := l.foldl
              (fun m kv => mapInsertBy natLtB kv.1 (IsoFieldData.from_bytes kv.2.as_bytes) m)
              req.iso_fields } := by
  induction l with
  | nil =>
    intro req
    rfl
  | cons kv t ih =>
    intro req
    simp only [List.map_cons, List.foldl_cons]
    rw [ih]
    rfl

theorem foldl_applyReq_sub (l : List ((Nat × Nat) × IsoFieldData)) :
    ∀ req : SigmaRequest,
      (l.map (fun kv => (Tag.IsoSubfield kv.1.1 kv.1.2, kv.2.as_bytes))).foldl
          (fun q p => applyReqField p.1 p.2 q) req
        = { req with
            iso_subfields := l.foldl
              (fun m kv => mapInsertBy pairLtB kv.1 (IsoFieldData.from_bytes kv.2.as_bytes) m)
              req.iso_subfields } := by
  induction l with
  | nil =>
    intro req
    rfl
  | cons kv t ih =>
    intro req
    simp only [List.map_cons, List.foldl_cons]
    rw [ih]
    rfl

/-- A stored `IsoFieldData` is canonical when its variant matches what
`from_bytes` reconstructs from its bytes: a `String` is valid UTF-8 (the
Rust type invariant), a `Raw` is not. -/
def IsoFieldData.canonical : IsoFieldData → Prop
  | .String s => isValidUtf8 s = true
  | .Raw b => isValidUtf8 b = false

theorem IsoFieldData.from_bytes_as_bytes (f : IsoFieldData) (h : f.canonical) :
    IsoFieldData.from_bytes f.as_bytes = f := by
  cases f with
  | String s =>
    unfold IsoFieldData.canonical at h
    unfold IsoFieldData.from_bytes IsoFieldData.as_bytes
    rw [if_pos h]
  | Raw b =>
    unfold IsoFieldData.canonical at h
    unfold IsoFieldData.from_bytes IsoFieldData.as_bytes
    rw [if_neg (by simp [h])]

theorem foldl_insert_lossy (l : List (Nat × List Nat))
    (h : ∀ p ∈ l, isValidUtf8 p.2 = true) :
    ∀ acc : List (Nat × List Nat),
      l.foldl (fun m kv => mapInsertBy natLtB kv.1 (utf8Lossy kv.2) m) acc
        = l.foldl (fun m kv => mapInsertBy natLtB kv.1 kv.2 m) acc := by
  induction l with
  | nil =>
    intro acc
    rfl
  | cons kv t ih =>
    intro acc
    simp only [List.foldl_cons]
    rw [isValidUtf8_lossy_eq kv.2 (h kv (by simp))]
    exact ih (fun q hq => h q (by simp [hq])) _

theorem foldl_insert_from_bytes (l : List (Nat × IsoFieldData))
    (h : ∀ p ∈ l, p.2.canonical) :
    ∀ acc : List (Nat × IsoFieldData),
      l.foldl (fun m kv => mapInsertBy natLtB kv.1 (IsoFieldData.from_bytes kv.2.as_bytes) m) acc
        = l.foldl (fun m kv => mapInsertBy natLtB kv.1 kv.2 m) acc := by
  induction l with
  | nil =>
    intro acc
    rfl
  | cons kv t ih =>
    intro acc
    simp only [List.foldl_cons]
    rw [IsoFieldData.from_bytes_as_bytes kv.2 (h kv (by simp))]
    exact ih (fun q hq => h q (by simp [hq])) _

theorem foldl_insert_from_bytes_pair (l : List ((Nat × Nat) × IsoFieldData))
    (h : ∀ p ∈ l, p.2.canonical) :
    ∀ acc : List ((Nat × Nat) × IsoFieldData),
      l.foldl (fun m kv => mapInsertBy pairLtB kv.1 (IsoFieldData.from_bytes kv.2.as_bytes) m) acc
        = l.foldl (fun m kv => mapInsertBy pairLtB kv.1 kv.2 m) acc := by
  induction l with
  | nil =>
    intro acc
    rfl
  | cons kv t ih =>
    intro acc
    simp only [List.foldl_cons]
    rw [IsoFieldData.from_bytes_as_bytes kv.2 (h kv (by simp))]
    exact ih (fun q hq => h q (by simp [hq])) _

/-! ### ASCII-decimal header fields through lossy conversion -/

theorem padMin48_digits (w n : Nat) :
    ∀ b ∈ padMin w 48 (decDigits n), 48 ≤ b ∧ b ≤ 57 := by
  intro b hb
  unfold padMin at hb
  rw [List.mem_append] at hb
  rcases hb with hb | hb
  · rw [List.eq_of_mem_replicate hb]
    omega
  · exact decDigits_mem_digit n b hb

theorem utf8Lossy_pad48 (w n : Nat) :
    utf8Lossy (padMin w 48 (decDigits n)) = padMin w 48 (decDigits n) :=
  utf8Lossy_ascii _ (fun b hb => by have := padMin48_digits w n b hb; omega)

theorem parse_lossy_pad (bound w n : Nat) (h : n < bound) :
    parseUnsignedBytes bound (utf8Lossy (padMin w 48 (decDigits n))) = some n := by
  rw [utf8Lossy_pad48]
  exact parseUnsignedBytes_pad_decDigits bound w n h

theorem parse_trim_lossy_pad (bound w n : Nat) (h : n < bound) :
    parseUnsignedBytes bound (strTrim (utf8Lossy (padMin w 48 (decDigits n)))) = some n := by
  rw [utf8Lossy_pad48, strTrim_digits _ (padMin48_digits w n)]
  exact parseUnsignedBytes_pad_decDigits bound w n h

/-! ### Well-formedness of a `SigmaRequest`

The claim's "valid `SigmaRequest`", plus the canonical-variant and
`auth_serno` bounds the counterexample below forces.  `10^10` is written
as its literal `10000000000`. -/

instance (f : IsoFieldData) : Decidable f.canonical :=
  match f with
  | .String s => inferInstanceAs (Decidable (isValidUtf8 s = true))
  | .Raw b => inferInstanceAs (Decidable (isValidUtf8 b = false))

def SigmaRequest.WF (r : SigmaRequest) : Prop :=
  (r.saf = [89] ∨ r.saf = [78])
  ∧ r.source.length = 1 ∧ isValidUtf8 r.source = true
  ∧ r.mti.length = 4 ∧ (∀ b ∈ r.mti, 48 ≤ b ∧ b ≤ 57)
  ∧ r.auth_serno < 10000000000
  ∧ r.tags.Pairwise (fun a b => a.1 < b.1)
  ∧ (∀ p ∈ r.tags, p.1 ≤ 9999 ∧ p.2.length ≤ 9999 ∧ isValidUtf8 p.2 = true)
  ∧ r.iso_fields.Pairwise (fun a b => a.1 < b.1)
  ∧ (∀ p ∈ r.iso_fields, p.1 ≤ 9999 ∧ p.2.as_bytes.length ≤ 9999 ∧ p.2.canonical)
  ∧ r.iso_subfields.Pairwise (fun a b => a.1.1 < b.1.1 ∨ (a.1.1 = b.1.1 ∧ a.1.2 < b.1.2))
  ∧ (∀ p ∈ r.iso_subfields,
      p.1.1 ≤ 9999 ∧ p.1.2 ≤ 99 ∧ p.2.as_bytes.length ≤ 9999 ∧ p.2.canonical)

instance (r : SigmaRequest) : Decidable r.WF := by
  unfold SigmaRequest.WF
  infer_instance

theorem sernoBytes_pad (n : Nat) (h : n < 10000000000) :
    sernoBytes n = padMin 10 48 (decDigits n) := by
  unfold sernoBytes
  rw [if_neg (by omega)]

theorem sernoBytes_length (n : Nat) : (sernoBytes n).length = 10 := by
  unfold sernoBytes
  split
  · rename_i h
    have h10 : (10 : Nat) ^ 10 = 10000000000 := by norm_num
    have := decDigits_length_ge 10 n (by omega)
    rw [List.length_take]
    omega
  · rename_i h
    rw [padMin_length]
    have := decDigits_length_le n 10 (by omega) (by norm_num; omega)
    omega

/-- C1 (amended): for a well-formed request whose encoding succeeds,
decoding the encoded frame gives back exactly the request. -/
theorem C1_request_roundtrip (r : SigmaRequest) (f : List Nat)
    (hWF : r.WF) (henc : SigmaRequest.encode r = .ok f) :
    SigmaRequest.decode f = .ok r := by
  obtain ⟨hsaf, hsrcLen, hsrcV, hmtiLen, hmtiD, hser, htP, htB, hiP, hiB, hsP, hsB⟩ := hWF
  unfold SigmaRequest.encode at henc
  split at henc
  · exact absurd henc (by simp)
  · rename_i body hbody
    split at henc
    · rename_i h5
      simp only [Except.ok.injEq] at henc
      subst henc
      unfold SigmaRequest.encodeBody at hbody
      split at hbody
      · exact absurd hbody (by simp)
      · rename_i fb hfb
        simp only [Except.ok.injEq] at hbody
        subst hbody
        -- abbreviations
        have hsafLen : r.saf.length = 1 := by rcases hsaf with h | h <;> simp [h]
        have hsafA : ∀ b ∈ r.saf, b ≤ 127 := by
          rcases hsaf with h | h <;> rw [h] <;> intro b hb <;> simp at hb <;> omega
        have eSaf : utf8Lossy r.saf = r.saf := utf8Lossy_ascii _ hsafA
        have eSrc : utf8Lossy r.source = r.source := isValidUtf8_lossy_eq _ hsrcV
        have hmtiA : ∀ b ∈ r.mti, b ≤ 127 := fun b hb => by have := hmtiD b hb; omega
        have eMti : utf8Lossy r.mti = r.mti := utf8Lossy_ascii _ hmtiA
        have hserB : sernoBytes r.auth_serno = padMin 10 48 (decDigits r.auth_serno) :=
          sernoBytes_pad r.auth_serno hser
        have hserLen : (sernoBytes r.auth_serno).length = 10 := sernoBytes_length r.auth_serno
        -- the length prefix
        have hB5 : (r.saf ++ r.source ++ r.mti ++ sernoBytes r.auth_serno ++ fb).length
            ≤ 99999 := by
          by_contra hc
          have hp5 : (10 : Nat) ^ 5 = 100000 := by norm_num
          have h6 := decDigits_length_ge 5
            (r.saf ++ r.source ++ r.mti ++ sernoBytes r.auth_serno ++ fb).length (by omega)
          unfold asciiLen5 at h5
          rw [padMin_length] at h5
          omega
        have e1 : bytes_split_to
            (asciiLen5 (r.saf ++ r.source ++ r.mti ++ sernoBytes r.auth_serno ++ fb).length
              ++ (r.saf ++ r.source ++ r.mti ++ sernoBytes r.auth_serno ++ fb)) 5
            = .ok (asciiLen5 (r.saf ++ r.source ++ r.mti ++ sernoBytes r.auth_serno ++ fb).length,
                r.saf ++ r.source ++ r.mti ++ sernoBytes r.auth_serno ++ fb) :=
          bytes_split_to_append _ _ 5 h5
        have e2 : parseUnsignedBytes (2 ^ 64)
            (utf8Lossy
              (asciiLen5 (r.saf ++ r.source ++ r.mti ++ sernoBytes r.auth_serno ++ fb).length))
            = some (r.saf ++ r.source ++ r.mti ++ sernoBytes r.auth_serno ++ fb).length := by
          unfold asciiLen5
          refine parse_lossy_pad (2 ^ 64) 5 _ ?_
          have h64 : (99999 : Nat) < 2 ^ 64 := by norm_num
          omega
        have e3 : bytes_split_to (r.saf ++ r.source ++ r.mti ++ sernoBytes r.auth_serno ++ fb)
            (r.saf ++ r.source ++ r.mti ++ sernoBytes r.auth_serno ++ fb).length
            = .ok (r.saf ++ r.source ++ r.mti ++ sernoBytes r.auth_serno ++ fb, []) :=
          bytes_split_to_all _
        have hassoc : r.saf ++ r.source ++ r.mti ++ sernoBytes r.auth_serno ++ fb
            = r.saf ++ (r.source ++ (r.mti ++ (sernoBytes r.auth_serno ++ fb))) := by
          simp [List.append_assoc]
        have e4 : bytes_split_to (r.saf ++ r.source ++ r.mti ++ sernoBytes r.auth_serno ++ fb) 1
            = .ok (r.saf, r.source ++ (r.mti ++ (sernoBytes r.auth_serno ++ fb))) := by
          rw [hassoc]
          exact bytes_split_to_append _ _ 1 hsafLen
        have e5 : validate_saf r.saf = .ok () := by
          rcases hsaf with h | h <;> rw [h] <;> decide
        have e6 : bytes_split_to (r.source ++ (r.mti ++ (sernoBytes r.auth_serno ++ fb))) 1
            = .ok (r.source, r.mti ++ (sernoBytes r.auth_serno ++ fb)) :=
          bytes_split_to_append _ _ 1 hsrcLen
        have e7 : validate_source r.source = .ok () := by
          unfold validate_source
          rw [if_neg (by omega)]
        have e8 : bytes_split_to (r.mti ++ (sernoBytes r.auth_serno ++ fb)) 4
            = .ok (r.mti, sernoBytes r.auth_serno ++ fb) :=
          bytes_split_to_append _ _ 4 hmtiLen
        have e9 : validate_mti r.mti = .ok () := by
          unfold validate_mti
          rw [if_neg (by omega)]
          have hall : r.mti.all (fun b => 48 ≤ b && b ≤ 57) = true := by
            rw [List.all_eq_true]
            intro b hb
            have := hmtiD b hb
            simp
            omega
          rw [if_pos hall]
        have e10 : bytes_split_to (sernoBytes r.auth_serno ++ fb) 10
            = .ok (sernoBytes r.auth_serno, fb) :=
          bytes_split_to_append _ _ 10 hserLen
        have e11 : parseUnsignedBytes (2 ^ 64) (strTrim (utf8Lossy (sernoBytes r.auth_serno)))
            = some r.auth_serno := by
          rw [hserB]
          refine parse_trim_lossy_pad (2 ^ 64) 10 _ ?_
          have h64 : (10000000000 : Nat) < 2 ^ 64 := by norm_num
          omega
        -- the field loop
        have hfieldLens : ∀ p ∈ r.fieldList, p.2.length ≤ 9999 := by
          intro p hp
          unfold SigmaRequest.fieldList at hp
          rw [List.mem_append] at hp
          rcases hp with hp | hp
          · rw [List.mem_append] at hp
            rcases hp with hp | hp
            · rw [List.mem_map] at hp
              obtain ⟨kv, hkv, hkv2⟩ := hp
              rw [← hkv2]
              exact (htB kv hkv).2.1
            · rw [List.mem_map] at hp
              obtain ⟨kv, hkv, hkv2⟩ := hp
              rw [← hkv2]
              exact (hiB kv hkv).2.1
          · rw [List.mem_map] at hp
            obtain ⟨kv, hkv, hkv2⟩ := hp
            rw [← hkv2]
            exact (hsB kv hkv).2.2.1
        have hloop := SigmaRequest.decodeLoop_encodeFields r.fieldList fb
          ⟨r.saf, r.source, r.mti, r.auth_serno, [], [], []⟩ hfieldLens hfb
        have hfold : (r.fieldList).foldl (fun q p => applyReqField p.1 p.2 q)
            ⟨r.saf, r.source, r.mti, r.auth_serno, [], [], []⟩ = r := by
          unfold SigmaRequest.fieldList
          rw [List.foldl_append, List.foldl_append]
          rw [foldl_applyReq_regular]
          rw [foldl_applyReq_iso]
          rw [foldl_applyReq_sub]
          show (⟨r.saf, r.source, r.mti, r.auth_serno,
            r.tags.foldl (fun m kv => mapInsertBy natLtB kv.1 (utf8Lossy kv.2) m) [],
            r.iso_fields.foldl
              (fun m kv => mapInsertBy natLtB kv.1 (IsoFieldData.from_bytes kv.2.as_bytes) m) [],
            r.iso_subfields.foldl
              (fun m kv => mapInsertBy pairLtB kv.1 (IsoFieldData.from_bytes kv.2.as_bytes) m)
              []⟩ : SigmaRequest) = r
          rw [foldl_insert_lossy r.tags (fun p hp => (htB p hp).2.2)]
          rw [foldl_insert_from_bytes r.iso_fields (fun p hp => (hiB p hp).2.2)]
          rw [foldl_insert_from_bytes_pair r.iso_subfields (fun p hp => (hsB p hp).2.2.2)]
          rw [foldl_mapInsertBy natLtB r.tags (pairwise_natLt r.tags htP) []
            (fun a ha => absurd ha (by simp))]
          rw [foldl_mapInsertBy natLtB r.iso_fields (pairwise_natLt' r.iso_fields hiP) []
            (fun a ha => absurd ha (by simp))]
          rw [foldl_mapInsertBy pairLtB r.iso_subfields (pairwise_pairLt r.iso_subfields hsP) []
            (fun a ha => absurd ha (by simp))]
          rfl
        rw [hfold] at hloop
        -- assemble
        unfold SigmaRequest.decode
        simp only [e1, e2, e3, e4, e5, e6, e7, e8, e9, e10, e11, eSaf, eSrc, eMti]
        exact hloop
    · exact absurd henc (by simp)

/-! ### Response decode loop vs encoded fields -/

/-- The fees a response decode collects from a field list: one entry per
`Regular(32)` field, in on-wire order. -/
def feesOfFields (fs : List (Tag × List Nat)) : List FeeData :=
  fs.filterMap (fun p =>
    if p.1 = Tag.Regular 32 then (FeeData.from_slice p.2).toOption else none)

/-- The `adata` update of one field: the last `Regular(48)` wins. -/
def adStep (a : Option (List Nat)) (p : Tag × List Nat) : Option (List Nat) :=
  if p.1 = Tag.Regular 48 then some (utf8Lossy p.2) else a

def adataOfFields (fs : List (Tag × List Nat)) : Option (List Nat) :=
  fs.foldl adStep none

theorem SigmaResponse.decodeLoopR_encodeFields (fs : List (Tag × List Nat)) :
    ∀ fb resp, (∀ p ∈ fs, p.2.length ≤ 9999) →
      (∀ p ∈ fs, p.1 ≠ Tag.Regular 31) →
      (∀ p ∈ fs, p.1 = Tag.Regular 32 → ∃ fee, FeeData.from_slice p.2 = .ok fee) →
      encodeFieldsList fs = .ok fb →
      SigmaResponse.decodeLoop fb resp
        = .ok ⟨resp.mti, resp.auth_serno, resp.reason, resp.fees ++ feesOfFields fs,
            fs.foldl adStep resp.adata⟩ := by
  induction fs with
  | nil =>
    intro fb resp _ _ _ h
    unfold encodeFieldsList at h
    simp only [Except.ok.injEq] at h
    subst h
    rw [SigmaResponse.decodeLoopR_nil]
    simp [feesOfFields]
  | cons p rest ih =>
    intro fb resp h9 h31 h32 h
    obtain ⟨t, d⟩ := p
    simp only [encodeFieldsList] at h
    split at h
    · exact absurd h (by simp)
    · rename_i fb1 heq1
      split at h
      · exact absurd h (by simp)
      · rename_i fb2 heq2
        simp only [Except.ok.injEq] at h
        subst h
        obtain ⟨hdec, h6⟩ := decode_field_encode t d fb1 fb2 (h9 (t, d) (by simp)) heq1
        have hne : fb1 ++ fb2 ≠ [] := by
          have hlen : (fb1 ++ fb2).length ≥ 6 := by
            simp only [List.length_append]
            omega
          intro hc
          rw [hc] at hlen
          simp at hlen
        have h9' : ∀ q ∈ rest, q.2.length ≤ 9999 := fun q hq => h9 q (by simp [hq])
        have h31' : ∀ q ∈ rest, q.1 ≠ Tag.Regular 31 := fun q hq => h31 q (by simp [hq])
        have h32' : ∀ q ∈ rest, q.1 = Tag.Regular 32 → ∃ fee, FeeData.from_slice q.2 = .ok fee :=
          fun q hq => h32 q (by simp [hq])
        cases t with
        | Regular i =>
          have hi31 : i ≠ 31 := by
            intro hc
            subst hc
            exact h31 (Tag.Regular 31, d) (by simp) rfl
          by_cases hi32 : i = 32
          · subst hi32
            obtain ⟨fee, hfee⟩ := h32 (Tag.Regular 32, d) (by simp) rfl
            have hfee' : FeeData.from_slice d = .ok fee := hfee
            have happ : applyRespField (Tag.Regular 32) d resp
                = .ok { resp with fees := resp.fees ++ [fee] } := by
              simp [applyRespField, hfee']
            rw [SigmaResponse.decodeLoopR_ok_step (fb1 ++ fb2) resp _ (Tag.Regular 32) d fb2
              hne hdec happ]
            rw [ih fb2 _ h9' h31' h32' heq2]
            have hfo : feesOfFields ((Tag.Regular 32, d) :: rest)
                = fee :: feesOfFields rest := by
              unfold feesOfFields
              simp [List.filterMap_cons, hfee', Except.toOption]
            rw [hfo]
            have hads : ((Tag.Regular 32, d) :: rest).foldl adStep resp.adata
                = rest.foldl adStep resp.adata := by
              simp [List.foldl_cons, adStep]
            rw [hads]
            simp [List.append_assoc]
          · by_cases hi48 : i = 48
            · subst hi48
              have happ : applyRespField (Tag.Regular 48) d resp
                  = .ok { resp with adata := some (utf8Lossy d) } := by
                simp [applyRespField]
              rw [SigmaResponse.decodeLoopR_ok_step (fb1 ++ fb2) resp _ (Tag.Regular 48) d fb2
                hne hdec happ]
              rw [ih fb2 _ h9' h31' h32' heq2]
              have hfo : feesOfFields ((Tag.Regular 48, d) :: rest) = feesOfFields rest := by
                unfold feesOfFields
                simp [List.filterMap_cons]
              rw [hfo]
              have hads : ((Tag.Regular 48, d) :: rest).foldl adStep resp.adata
                  = rest.foldl adStep (some (utf8Lossy d)) := by
                simp [List.foldl_cons, adStep]
              rw [hads]
            · have happ : applyRespField (Tag.Regular i) d resp = .ok resp := by
                simp [applyRespField, hi31, hi32, hi48]
              rw [SigmaResponse.decodeLoopR_ok_step (fb1 ++ fb2) resp _ (Tag.Regular i) d fb2
                hne hdec happ]
              rw [ih fb2 _ h9' h31' h32' heq2]
              have hfo : feesOfFields ((Tag.Regular i, d) :: rest) = feesOfFields rest := by
                unfold feesOfFields
                simp [List.filterMap_cons, hi32]
              rw [hfo]
              have hads : ((Tag.Regular i, d) :: rest).foldl adStep resp.adata
                  = rest.foldl adStep resp.adata := by
                simp [List.foldl_cons, adStep, hi48]
              rw [hads]
        | Iso i =>
          have happ : applyRespField (Tag.Iso i) d resp = .ok resp := rfl
          rw [SigmaResponse.decodeLoopR_ok_step (fb1 ++ fb2) resp _ (Tag.Iso i) d fb2
            hne hdec happ]
          rw [ih fb2 _ h9' h31' h32' heq2]
          have hfo : feesOfFields ((Tag.Iso i, d) :: rest) = feesOfFields rest := by
            unfold feesOfFields
            simp [List.filterMap_cons]
          rw [hfo]
          have hads : ((Tag.Iso i, d) :: rest).foldl adStep resp.adata
              = rest.foldl adStep resp.adata := by
            simp [List.foldl_cons, adStep]
          rw [hads]
        | IsoSubfield i si =>
          have happ : applyRespField (Tag.IsoSubfield i si) d resp = .ok resp := rfl
          rw [SigmaResponse.decodeLoopR_ok_step (fb1 ++ fb2) resp _ (Tag.IsoSubfield i si) d fb2
            hne hdec happ]
          rw [ih fb2 _ h9' h31' h32' heq2]
          have hfo : feesOfFields ((Tag.IsoSubfield i si, d) :: rest) = feesOfFields rest := by
            unfold feesOfFields
            simp [List.filterMap_cons]
          rw [hfo]
          have hads : ((Tag.IsoSubfield i si, d) :: rest).foldl adStep resp.adata
              = rest.foldl adStep resp.adata := by
            simp [List.foldl_cons, adStep]
          rw [hads]

/-- C8: a well-formed response frame (valid length prefix, 4-digit MTI,
parseable 10-byte auth-serno, a sequence of well-formed fields whose
`Regular(32)` payloads parse as fees) that contains no `Regular(31)`
field decodes successfully — it is not rejected — and the decoded
`reason` is 0; only the `Regular(32)` and `Regular(48)` fields contribute
to the result (fees in order, last `adata` wins), every other tag is
silently ignored. -/
theorem C8_response_no_reason (mtiB serB fb : List Nat) (fs : List (Tag × List Nat))
    (serno : Nat)
    (hmtiLen : mtiB.length = 4) (hmtiD : ∀ b ∈ mtiB, 48 ≤ b ∧ b ≤ 57)
    (hserLen : serB.length = 10)
    (hparse : parseUnsignedBytes (2 ^ 64) (strTrim (utf8Lossy serB)) = some serno)
    (hfb : encodeFieldsList fs = .ok fb)
    (h9 : ∀ p ∈ fs, p.2.length ≤ 9999)
    (h31 : ∀ p ∈ fs, p.1 ≠ Tag.Regular 31)
    (h32 : ∀ p ∈ fs, p.1 = Tag.Regular 32 → ∃ fee, FeeData.from_slice p.2 = .ok fee)
    (hBound : 14 + fb.length ≤ 99999) :
    SigmaResponse.decode (asciiLen5 (14 + fb.length) ++ (mtiB ++ (serB ++ fb)))
      = .ok ⟨mtiB, serno, 0, feesOfFields fs, adataOfFields fs⟩ := by
  have hmtiA : ∀ b ∈ mtiB, b ≤ 127 := fun b hb => by have := hmtiD b hb; omega
  have eMti : utf8Lossy mtiB = mtiB := utf8Lossy_ascii _ hmtiA
  have h5 : (asciiLen5 (14 + fb.length)).length = 5 := by
    unfold asciiLen5
    rw [padMin_length]
    have hp5 : (10 : Nat) ^ 5 = 100000 := by norm_num
    have := decDigits_length_le (14 + fb.length) 5 (by omega) (by omega)
    omega
  have hrestLen : (mtiB ++ (serB ++ fb)).length = 14 + fb.length := by
    simp only [List.length_append]
    omega
  have e1 : bytes_split_to (asciiLen5 (14 + fb.length) ++ (mtiB ++ (serB ++ fb))) 5
      = .ok (asciiLen5 (14 + fb.length), mtiB ++ (serB ++ fb)) :=
    bytes_split_to_append _ _ 5 h5
  have e2 : parseUnsignedBytes (2 ^ 64) (utf8Lossy (asciiLen5 (14 + fb.length)))
      = some (14 + fb.length) := by
    unfold asciiLen5
    refine parse_lossy_pad (2 ^ 64) 5 _ ?_
    have h64 : (99999 : Nat) < 2 ^ 64 := by norm_num
    omega
  have e3 : bytes_split_to (mtiB ++ (serB ++ fb)) (14 + fb.length)
      = .ok (mtiB ++ (serB ++ fb), []) := by
    rw [← hrestLen]
    exact bytes_split_to_all _
  have e4 : bytes_split_to (mtiB ++ (serB ++ fb)) 4 = .ok (mtiB, serB ++ fb) :=
    bytes_split_to_append _ _ 4 hmtiLen
  have e5 : validate_mti mtiB = .ok () := by
    unfold validate_mti
    rw [if_neg (by omega)]
    have hall : mtiB.all (fun b => 48 ≤ b && b ≤ 57) = true := by
      rw [List.all_eq_true]
      intro b hb
      have := hmtiD b hb
      simp
      omega
    rw [if_pos hall]
  have e6 : bytes_split_to (serB ++ fb) 10 = .ok (serB, fb) :=
    bytes_split_to_append _ _ 10 hserLen
  have hloop := SigmaResponse.decodeLoopR_encodeFields fs fb ⟨mtiB, serno, 0, [], none⟩
    h9 h31 h32 hfb
  unfold SigmaResponse.decode
  simp only [e1, e2, e3, e4, e5, e6, eMti, hparse]
  rw [hloop]
  rfl

def fsW : List (Tag × List Nat) :=
  [(Tag.Regular 5, [88]), (Tag.Regular 32, [56, 49, 49, 54, 57, 55, 56, 51, 48, 48]),
    (Tag.Regular 48, [65])]

def fbW : List Nat :=
  [84, 0, 5, 0, 0, 1, 88, 84, 0, 50, 0, 0, 16, 56, 49, 49, 54, 57, 55, 56, 51, 48, 48,
    84, 0, 72, 0, 0, 1, 65]

theorem C8_response_no_reason_witness :
    SigmaResponse.decode (asciiLen5 (14 + fbW.length)
        ++ ([48, 49, 49, 48] ++ ([52, 48, 48, 55, 48, 52, 48, 57, 55, 56] ++ fbW)))
      = .ok ⟨[48, 49, 49, 48], 4007040978, 0, feesOfFields fsW, adataOfFields fsW⟩ :=
  C8_response_no_reason [48, 49, 49, 48] [52, 48, 48, 55, 48, 52, 48, 57, 55, 56] fbW fsW
    4007040978 (by decide) (by decide) (by decide) (by decide) (by decide) (by decide)
    (by decide)
    (by
      intro p hp
      fin_cases hp
      · intro h
        exact absurd h (by decide)
      · intro h
        exact ⟨⟨8116, 978, 300⟩, by decide⟩
      · intro h
        exact absurd h (by decide))
    (by decide)

/-- C2 (amended): one stream-decoder step as a function of the buffer.
With fewer than 5 bytes it returns need-more and consumes nothing.  If
the 5-byte prefix is valid UTF-8 and parses as `n`: with fewer than
`n + 5` bytes it returns need-more and leaves the buffer unchanged; once
`n + 5` bytes are present it removes exactly `n + 5` bytes and hands
them to `SigmaResponse::decode`, yielding one response exactly when that
decode succeeds (and an error otherwise — the bytes are removed either
way). -/
theorem C2_stream_decode_step (src : List Nat) :
    (src.length < 5 → protocolDecode src = (.ok none, src))
    ∧ (∀ n : Nat, isValidUtf8 (src.take 5) = true →
        parseUnsignedBytes (2 ^ 64) (src.take 5) = some n → 5 ≤ src.length →
        (src.length < n + 5 → protocolDecode src = (.ok none, src))
        ∧ (n + 5 ≤ src.length →
            (protocolDecode src).2 = src.drop (n + 5)
            ∧ ∀ resp, (protocolDecode src).1 = .ok (some resp)
                ↔ SigmaResponse.decode (src.take (n + 5)) = .ok resp)) := by
  constructor
  · intro h
    unfold protocolDecode
    rw [if_pos h]
  · intro n hutf hpar hge
    unfold protocolDecode
    rw [if_neg (by omega), if_neg (by simp [hutf]), hpar]
    simp only []
    constructor
    · intro hlt
      rw [if_pos (by omega)]
    · intro hge2
      rw [if_neg (by omega)]
      split
      · rename_i resp' heq
        refine ⟨rfl, ?_⟩
        intro resp
        constructor
        · intro h
          simp only [Except.ok.injEq, Option.some.injEq] at h
          rw [← h]
          exact heq
        · intro h
          rw [heq] at h
          simp only [Except.ok.injEq] at h
          rw [h]
      · rename_i e heq
        refine ⟨rfl, ?_⟩
        intro resp
        constructor
        · intro h
          exact absurd h (by simp)
        · intro h
          rw [heq] at h
          exact absurd h (by simp)

/-- C2: the claim as stated fails on the buffer `"00000"`: it holds at
least `5 + 0` bytes, so the claim predicts a decoded response, but the
step returns an error (the body fails to decode) — and the 5 bytes are
removed all the same. -/
theorem C2_stream_decode_counterexample :
    ([48, 48, 48, 48, 48] : List Nat).length = 5 + 0
    ∧ parseUnsignedBytes (2 ^ 64) (([48, 48, 48, 48, 48] : List Nat).take 5) = some 0
    ∧ protocolDecode [48, 48, 48, 48, 48] = (.error (.sigma .Bounds), []) := by
  refine ⟨by decide, by decide, ?_⟩
  decide

theorem C2_stream_decode_step_witness :
    protocolDecode [48, 48] = (.ok none, [48, 48])
    ∧ protocolDecode [48, 48, 48, 48, 53, 56] = (.ok none, [48, 48, 48, 48, 53, 56])
    ∧ (protocolDecode ([48, 48, 48, 50, 52, 48, 49, 49, 48, 52, 48, 48, 55, 48, 52, 48,
        57, 55, 56, 84, 0, 49, 0, 0, 4, 56, 52, 57, 53])).2
      = ([48, 48, 48, 50, 52, 48, 49, 49, 48, 52, 48, 48, 55, 48, 52, 48,
        57, 55, 56, 84, 0, 49, 0, 0, 4, 56, 52, 57, 53] : List Nat).drop (24 + 5)
    ∧ ((protocolDecode ([48, 48, 48, 50, 52, 48, 49, 49, 48, 52, 48, 48, 55, 48, 52, 48,
        57, 55, 56, 84, 0, 49, 0, 0, 4, 56, 52, 57, 53])).1
        = .ok (some ⟨[48, 49, 49, 48], 4007040978, 8495, [], none⟩)
      ↔ SigmaResponse.decode (([48, 48, 48, 50, 52, 48, 49, 49, 48, 52, 48, 48, 55, 48,
          52, 48, 57, 55, 56, 84, 0, 49, 0, 0, 4, 56, 52, 57, 53] : List Nat).take (24 + 5))
        = .ok ⟨[48, 49, 49, 48], 4007040978, 8495, [], none⟩) := by
  refine ⟨(C2_stream_decode_step [48, 48]).1 (by decide), ?_, ?_, ?_⟩
  · exact (((C2_stream_decode_step [48, 48, 48, 48, 53, 56]).2 5 (by decide) (by decide)
      (by decide)).1 (by decide))
  · exact (((C2_stream_decode_step _).2 24 (by decide) (by decide) (by decide)).2
      (by decide)).1
  · exact (((C2_stream_decode_step _).2 24 (by decide) (by decide) (by decide)).2
      (by decide)).2 _

/-- C3 (amended): the buffer shrinks only by the exact frame length
`n + 5`, and it shrinks exactly when the 5-byte prefix parses and the
full frame is present — whether or not the body then decodes; in every
other case (including a prefix that fails UTF-8 validation or numeric
parsing, where the step errors) the buffer is unchanged. -/
theorem C3_stream_buffer (src : List Nat) :
    ((src.length < 5 ∨ isValidUtf8 (src.take 5) = false
        ∨ parseUnsignedBytes (2 ^ 64) (src.take 5) = none
        ∨ (∀ n : Nat, parseUnsignedBytes (2 ^ 64) (src.take 5) = some n →
            src.length < n + 5)) →
      (protocolDecode src).2 = src)
    ∧ (∀ n : Nat, isValidUtf8 (src.take 5) = true →
        parseUnsignedBytes (2 ^ 64) (src.take 5) = some n → n + 5 ≤ src.length →
        (protocolDecode src).2 = src.drop (n + 5)) := by
  constructor
  · intro h
    unfold protocolDecode
    by_cases h5 : src.length < 5
    · rw [if_pos h5]
    · rw [if_neg h5]
      by_cases hu : isValidUtf8 (src.take 5) = true
      · rw [if_neg (by simp [hu])]
        rcases hpar : parseUnsignedBytes (2 ^ 64) (src.take 5) with - | n
        · rfl
        · simp only []
          rcases h with h | h | h | h
          · omega
          · rw [hu] at h
            cases h
          · rw [hpar] at h
            cases h
          · rw [if_pos (h n hpar)]
      · rw [if_pos (by simpa using hu)]
  · intro n hutf hpar hge
    unfold protocolDecode
    rw [if_neg (by omega), if_neg (by simp [hutf]), hpar]
    simp only []
    rw [if_neg (by omega)]
    split
    · rfl
    · rfl

/-- C3: the claim as stated says an erroring step leaves the buffer
unchanged; on the buffer `"00005ABCDE"` the step errors (the body is not
a valid response) yet the whole 10-byte frame has been removed. -/
theorem C3_stream_buffer_counterexample :
    protocolDecode [48, 48, 48, 48, 53, 65, 66, 67, 68, 69]
      = (.error (.sigma .IncorrectFieldData), [])
    ∧ ([] : List Nat) ≠ [48, 48, 48, 48, 53, 65, 66, 67, 68, 69] := by
  refine ⟨?_, by decide⟩
  decide

theorem C3_stream_buffer_witness :
    (protocolDecode [48, 48, 48]).2 = [48, 48, 48]
    ∧ (protocolDecode [48, 48, 48, 48, 53, 65, 66, 67, 68, 69]).2
      = ([48, 48, 48, 48, 53, 65, 66, 67, 68, 69] : List Nat).drop (5 + 5) := by
  refine ⟨(C3_stream_buffer [48, 48, 48]).1 (Or.inl (by decide)), ?_⟩
  exact (C3_stream_buffer _).2 5 (by decide) (by decide) (by decide)

/-- C4 (amended): parsing the display form round-trips for
`Regular(i)` with `i ∈ [0, 9999]` and `IsoSubfield(i, si)` with
`i ∈ [0, 9999]`, `si ∈ [0, 99]`, but for `Iso(i)` only when
`i ∈ [0, 999]`: `Display` prints `Iso` with a 3-digit minimum width
while `from_str` requires total length 4, so a 4-digit `Iso` index does
not parse back. -/
theorem C4_tag_display_roundtrip (i si : Nat) (hi : i ≤ 9999) (hsi : si ≤ 99) :
    Tag.from_str (Tag.display (Tag.Regular i)) = .ok (Tag.Regular i)
    ∧ (i ≤ 999 → Tag.from_str (Tag.display (Tag.Iso i)) = .ok (Tag.Iso i))
    ∧ Tag.from_str (Tag.display (Tag.IsoSubfield i si)) = .ok (Tag.IsoSubfield i si) := by
  have hp4 : (10 : Nat) ^ 4 = 10000 := by norm_num
  have hp3 : (10 : Nat) ^ 3 = 1000 := by norm_num
  have hp2 : (10 : Nat) ^ 2 = 100 := by norm_num
  have hlen4 : (padMin 4 48 (decDigits i)).length = 4 := by
    rw [padMin_length]
    have := decDigits_length_le i 4 (by omega) (by omega)
    omega
  have hlen2 : (padMin 2 48 (decDigits si)).length = 2 := by
    rw [padMin_length]
    have := decDigits_length_le si 2 (by omega) (by omega)
    omega
  refine ⟨?_, ?_, ?_⟩
  · unfold Tag.display Tag.from_str
    simp only [List.head?_cons]
    rw [if_pos (by simp [hlen4])]
    rw [List.drop_one, List.tail_cons, List.take_of_length_le (by omega)]
    rw [parseUnsignedBytes_pad_decDigits 65536 4 i (by omega)]
  · intro hi3
    have hlen3 : (padMin 3 48 (decDigits i)).length = 3 := by
      rw [padMin_length]
      have := decDigits_length_le i 3 (by omega) (by omega)
      omega
    unfold Tag.display Tag.from_str
    simp only [List.head?_cons]
    rw [if_neg (by simp), if_pos (by simp [hlen3])]
    rw [List.drop_one, List.tail_cons, List.take_of_length_le (by omega)]
    rw [parseUnsignedBytes_pad_decDigits 65536 3 i (by omega)]
  · unfold Tag.display Tag.from_str
    simp only [List.head?_cons]
    rw [if_neg (by simp), if_neg (by simp),
      if_pos (by simp [List.length_append, hlen4, hlen2])]
    have hd1 : ((115 :: (padMin 4 48 (decDigits i) ++ padMin 2 48 (decDigits si))).drop 1).take 4
        = padMin 4 48 (decDigits i) := by
      rw [List.drop_one, List.tail_cons, List.take_left' hlen4]
    have hd5 : ((115 :: (padMin 4 48 (decDigits i) ++ padMin 2 48 (decDigits si))).drop 5).take 2
        = padMin 2 48 (decDigits si) := by
      have : (115 :: (padMin 4 48 (decDigits i) ++ padMin 2 48 (decDigits si))).drop 5
          = (padMin 4 48 (decDigits i) ++ padMin 2 48 (decDigits si)).drop 4 := by
        rfl
      rw [this, List.drop_left' hlen4, List.take_of_length_le (by omega)]
    rw [hd1, hd5]
    rw [parseUnsignedBytes_pad_decDigits 65536 4 i (by omega),
      parseUnsignedBytes_pad_decDigits 256 2 si (by omega)]

/-- C4: the claim as stated fails for `Iso(1000)`: its display form is
`"i1000"` (length 5), which `from_str` rejects. -/
theorem C4_tag_display_counterexample :
    Tag.from_str (Tag.display (Tag.Iso 1000)) = .error .IncorrectTag
    ∧ Tag.from_str (Tag.display (Tag.Iso 1000)) ≠ .ok (Tag.Iso 1000) := by
  have hd : Tag.display (Tag.Iso 1000) = [105, 49, 48, 48, 48] := by
    have h1000 : decDigits 1000 = [49, 48, 48, 48] := by
      simp [decDigits, decDigitsCore_unfold]
    simp [Tag.display, padMin, h1000]
  rw [hd]
  exact ⟨by decide, by decide⟩

theorem C4_tag_display_roundtrip_witness :
    Tag.from_str (Tag.display (Tag.Regular 19)) = .ok (Tag.Regular 19)
    ∧ Tag.from_str (Tag.display (Tag.Iso 19)) = .ok (Tag.Iso 19)
    ∧ Tag.from_str (Tag.display (Tag.IsoSubfield 19 2)) = .ok (Tag.IsoSubfield 19 2) :=
  ⟨(C4_tag_display_roundtrip 19 2 (by decide) (by decide)).1,
    (C4_tag_display_roundtrip 19 2 (by decide) (by decide)).2.1 (by decide),
    (C4_tag_display_roundtrip 19 2 (by decide) (by decide)).2.2⟩

/-- C5 (amended): `encode_field_to_buf` propagates a tag-encoding error;
otherwise, because `data.len() as u16` reduces the payload length modulo
2^16, it fails (with `Bounds`) exactly when the reduced length exceeds
9999, and on success appends the 4 tag bytes, the BCD-x4 encoding of the
reduced length, then the payload verbatim.  (For payloads of length at
most 9999 the reduction is the identity, so on that range the original
claim's reading holds.) -/
theorem C5_encode_field (t : Tag) (d : List Nat) :
    (∀ e, Tag.encode_to_buf t = .error e → encode_field_to_buf t d = .error e)
    ∧ (∀ tb, Tag.encode_to_buf t = .ok tb →
        (9999 < d.length % 65536 → encode_field_to_buf t d = .error .Bounds)
        ∧ (d.length % 65536 ≤ 9999 →
            encode_field_to_buf t d
              = .ok (tb ++ [d.length % 65536 / 1000 % 10 * 16 + d.length % 65536 / 100 % 10,
                  d.length % 65536 / 10 % 10 * 16 + d.length % 65536 % 10] ++ d))) := by
  constructor
  · intro e he
    unfold encode_field_to_buf
    rw [he]
  · intro tb htb
    constructor
    · intro hgt
      unfold encode_field_to_buf
      rw [htb]
      unfold encode_bcd_x4
      rw [if_pos hgt]
    · intro hle
      unfold encode_field_to_buf
      rw [htb, encode_bcd_x4_ok _ hle]

/-- C5: the claim as stated says encoding errors whenever the payload
length exceeds 9999; a payload of 65536 bytes encodes successfully (the
length is truncated to 0 by the `as u16` cast), and the emitted length
field is the BCD of 0, not of the payload length. -/
theorem encode_field_len_mod (t : Tag) (tb lb d : List Nat)
    (ht : t.encode_to_buf = .ok tb)
    (hd : encode_bcd_x4 (d.length % 65536) = .ok lb) :
    encode_field_to_buf t d = .ok (tb ++ lb ++ d) := by
  unfold encode_field_to_buf
  rw [ht, hd]

/-- Counterexample to C5 as stated: a payload of 65536 bytes exceeds 9999,
yet `encode_field_to_buf` succeeds, because the source casts the length
with `data.len() as u16`, which wraps to 0. -/
theorem C5_encode_field_counterexample :
    9999 < (List.replicate 65536 48 : List Nat).length
    ∧ encode_field_to_buf (Tag.Regular 0) (List.replicate 65536 48)
      = .ok ([84, 0, 0, 0] ++ [0, 0] ++ List.replicate 65536 48) :=
  ⟨Nat.lt_of_lt_of_eq (by norm_num) (List.length_replicate 65536 48).symm,
   encode_field_len_mod (Tag.Regular 0) [84, 0, 0, 0] [0, 0] (List.replicate 65536 48)
     (by decide) (by rw [List.length_replicate]; decide)⟩

theorem C5_encode_field_witness :
    encode_field_to_buf (Tag.Regular 9) [73, 68, 68, 81, 68]
      = .ok ([84, 0, 9, 0] ++ [0, 5] ++ [73, 68, 68, 81, 68])
    ∧ encode_field_to_buf (Tag.Regular 10000) [] = .error .Bounds := by
  constructor
  · exact ((C5_encode_field (Tag.Regular 9) [73, 68, 68, 81, 68]).2 [84, 0, 9, 0]
      (by decide)).2 (by decide)
  · exact (C5_encode_field (Tag.Regular 10000) []).1 .Bounds (by decide)

theorem tagDecodeQuad (a b c d : Nat) :
    Tag.decode [a, b, c, d]
      = (match decode_bcd_x4 b c with
        | .error e => .error e
        | .ok i =>
          match decode_bcd_x2 d with
          | .error e => .error e
          | .ok si =>
            match a with
            | 84 => .ok (.Regular i)
            | 73 => .ok (.Iso i)
            | 83 => .ok (.IsoSubfield i si)
            | _ => .error .IncorrectTag) := by
  unfold Tag.decode
  rw [if_neg (by simp)]
  simp only [List.getD_cons_succ, List.getD_cons_zero]

/-- C6 (amended): on a 4-byte input, `Tag::decode` fails exactly when a
BCD nibble of bytes 1-3 is non-decimal or the kind byte is unknown — but
non-decimal nibbles yield a `Bounds` error (from `decode_bcd_x2`,
checked before the kind byte is examined), not `IncorrectTag`;
`IncorrectTag` only reports an unknown kind byte (or a short input). -/
theorem C6_tag_decode_errors (a b c d : Nat) :
    ((9 < b / 16 ∨ 9 < b % 16 ∨ 9 < c / 16 ∨ 9 < c % 16 ∨ 9 < d / 16 ∨ 9 < d % 16) →
      Tag.decode [a, b, c, d] = .error .Bounds)
    ∧ (9 < b / 16 ∨ 9 < b % 16 ∨ 9 < c / 16 ∨ 9 < c % 16 ∨ 9 < d / 16 ∨ 9 < d % 16
        ∨ a = 84 ∨ a = 73 ∨ a = 83
        ∨ Tag.decode [a, b, c, d] = .error .IncorrectTag)
    ∧ (b / 16 ≤ 9 → b % 16 ≤ 9 → c / 16 ≤ 9 → c % 16 ≤ 9 → d / 16 ≤ 9 → d % 16 ≤ 9 →
        (a = 84 → Tag.decode [a, b, c, d]
          = .ok (.Regular ((b / 16 * 10 + b % 16) * 100 + (c / 16 * 10 + c % 16))))
        ∧ (a = 73 → Tag.decode [a, b, c, d]
          = .ok (.Iso ((b / 16 * 10 + b % 16) * 100 + (c / 16 * 10 + c % 16))))
        ∧ (a = 83 → Tag.decode [a, b, c, d]
          = .ok (.IsoSubfield ((b / 16 * 10 + b % 16) * 100 + (c / 16 * 10 + c % 16))
              (d / 16 * 10 + d % 16)))
        ∧ (a ≠ 84 → a ≠ 73 → a ≠ 83 →
            Tag.decode [a, b, c, d] = .error .IncorrectTag)) := by
  have hok : ∀ x y : Nat, x / 16 ≤ 9 → x % 16 ≤ 9 → y / 16 ≤ 9 → y % 16 ≤ 9 →
      decode_bcd_x4 x y = .ok ((x / 16 * 10 + x % 16) * 100 + (y / 16 * 10 + y % 16)) := by
    intro x y hx1 hx2 hy1 hy2
    unfold decode_bcd_x4 decode_bcd_x2
    rw [if_neg (by omega), if_neg (by omega), if_neg (by omega), if_neg (by omega)]
  have hok2 : ∀ y : Nat, y / 16 ≤ 9 → y % 16 ≤ 9 →
      decode_bcd_x2 y = .ok (y / 16 * 10 + y % 16) := by
    intro y hy1 hy2
    unfold decode_bcd_x2
    rw [if_neg (by omega), if_neg (by omega)]
  refine ⟨?_, ?_, ?_⟩
  · intro hbad
    rw [tagDecodeQuad]
    unfold decode_bcd_x4 decode_bcd_x2
    by_cases h1 : 9 < b / 16 <;> by_cases h2 : 9 < b % 16 <;> by_cases h3 : 9 < c / 16
      <;> by_cases h4 : 9 < c % 16 <;> by_cases h5 : 9 < d / 16 <;> by_cases h6 : 9 < d % 16
      <;> (first | omega | simp [h1, h2, h3, h4, h5, h6])
  · by_cases h1 : 9 < b / 16
    · exact Or.inl h1
    · by_cases h2 : 9 < b % 16
      · exact Or.inr (Or.inl h2)
      · by_cases h3 : 9 < c / 16
        · exact Or.inr (Or.inr (Or.inl h3))
        · by_cases h4 : 9 < c % 16
          · exact Or.inr (Or.inr (Or.inr (Or.inl h4)))
          · by_cases h5 : 9 < d / 16
            · exact Or.inr (Or.inr (Or.inr (Or.inr (Or.inl h5))))
            · by_cases h6 : 9 < d % 16
              · exact Or.inr (Or.inr (Or.inr (Or.inr (Or.inr (Or.inl h6)))))
              · by_cases ha1 : a = 84
                · exact Or.inr (Or.inr (Or.inr (Or.inr (Or.inr (Or.inr (Or.inl ha1))))))
                · by_cases ha2 : a = 73
                  · exact Or.inr (Or.inr (Or.inr (Or.inr (Or.inr (Or.inr (Or.inr
                      (Or.inl ha2)))))))
                  · by_cases ha3 : a = 83
                    · exact Or.inr (Or.inr (Or.inr (Or.inr (Or.inr (Or.inr (Or.inr (Or.inr
                        (Or.inl ha3))))))))
                    · refine Or.inr (Or.inr (Or.inr (Or.inr (Or.inr (Or.inr (Or.inr (Or.inr
                        (Or.inr ?_))))))))
                      rw [tagDecodeQuad, hok b c (by omega) (by omega) (by omega) (by omega),
                        hok2 d (by omega) (by omega)]
                      simp only []
  · intro h1 h2 h3 h4 h5 h6
    have hdec : Tag.decode [a, b, c, d]
        = (match a with
          | 84 => .ok (.Regular ((b / 16 * 10 + b % 16) * 100 + (c / 16 * 10 + c % 16)))
          | 73 => .ok (.Iso ((b / 16 * 10 + b % 16) * 100 + (c / 16 * 10 + c % 16)))
          | 83 => .ok (.IsoSubfield ((b / 16 * 10 + b % 16) * 100 + (c / 16 * 10 + c % 16))
              (d / 16 * 10 + d % 16))
          | _ => .error .IncorrectTag) := by
      rw [tagDecodeQuad, hok b c (by omega) (by omega) (by omega) (by omega),
        hok2 d (by omega) (by omega)]
    refine ⟨?_, ?_, ?_, ?_⟩
    · intro ha
      subst ha
      rw [hdec]
    · intro ha
      subst ha
      rw [hdec]
    · intro ha
      subst ha
      rw [hdec]
    · intro ha1 ha2 ha3
      rw [hdec]
      split
      · omega
      · omega
      · omega
      · rfl

/-- C6: the claim as stated says a non-decimal BCD nibble yields an
`IncorrectTag` error; on the input `T \x0A \x00 \x00` the low nibble of
byte 1 is 10 and `Tag::decode` returns a `Bounds` error instead. -/
theorem C6_tag_decode_counterexample :
    Tag.decode [84, 10, 0, 0] = .error .Bounds ∧ Error.Bounds ≠ Error.IncorrectTag := by
  exact ⟨by decide, by decide⟩

theorem C6_tag_decode_errors_witness :
    Tag.decode [73, 170, 0, 0] = .error .Bounds
    ∧ Tag.decode [84, 0, 37, 2] = .ok (.Regular 25)
    ∧ Tag.decode [73, 1, 37, 0] = .ok (.Iso 125)
    ∧ Tag.decode [83, 0, 37, 2] = .ok (.IsoSubfield 25 2)
    ∧ Tag.decode [88, 0, 0, 0] = .error .IncorrectTag := by
  refine ⟨?_, ?_, ?_, ?_, ?_⟩
  · exact (C6_tag_decode_errors 73 170 0 0).1 (by omega)
  · exact ((C6_tag_decode_errors 84 0 37 2).2.2 (by omega) (by omega) (by omega) (by omega)
      (by omega) (by omega)).1 rfl
  · exact ((C6_tag_decode_errors 73 1 37 0).2.2 (by omega) (by omega) (by omega) (by omega)
      (by omega) (by omega)).2.1 rfl
  · exact ((C6_tag_decode_errors 83 0 37 2).2.2 (by omega) (by omega) (by omega) (by omega)
      (by omega) (by omega)).2.2.1 rfl
  · exact ((C6_tag_decode_errors 88 0 0 0).2.2 (by omega) (by omega) (by omega) (by omega)
      (by omega) (by omega)).2.2.2 (by omega) (by omega) (by omega)

set_option maxHeartbeats 1000000

def rC1cex : SigmaRequest :=
  ⟨[78], [88], [48, 49, 48, 48], 10000000000, [], [(2, IsoFieldData.Raw [65])], []⟩

def frameC1 : List Nat :=
  [48, 48, 48, 50, 51, 78, 88, 48, 49, 48, 48,
   49, 48, 48, 48, 48, 48, 48, 48, 48, 48, 73, 0, 2, 0, 0, 1, 65]

/-- Counterexample to C1 as stated: `rC1cex` satisfies every validity
condition the claim lists (validated header fields, payload lengths at
most 9999, indices in range), its encoding succeeds, yet decoding the
frame yields a different request: `auth_serno = 10^10` is truncated to
its first 10 digits, and the `Raw [65]` payload, being valid UTF-8,
decodes as `String [65]`. -/
theorem C1_request_roundtrip_counterexample :
    validate_saf rC1cex.saf = .ok ()
    ∧ validate_source rC1cex.source = .ok ()
    ∧ validate_mti rC1cex.mti = .ok ()
    ∧ (∀ p ∈ rC1cex.tags, p.1 ≤ 9999 ∧ p.2.length ≤ 9999)
    ∧ (∀ p ∈ rC1cex.iso_fields, p.1 ≤ 9999 ∧ p.2.as_bytes.length ≤ 9999)
    ∧ (∀ p ∈ rC1cex.iso_subfields, p.1.1 ≤ 9999 ∧ p.1.2 ≤ 99 ∧ p.2.as_bytes.length ≤ 9999)
    ∧ SigmaRequest.encode rC1cex = .ok frameC1
    ∧ SigmaRequest.decode frameC1
      = .ok ⟨[78], [88], [48, 49, 48, 48], 1000000000, [],
          [(2, IsoFieldData.String [65])], []⟩
    ∧ (⟨[78], [88], [48, 49, 48, 48], 1000000000, [],
          [(2, IsoFieldData.String [65])], []⟩ : SigmaRequest) ≠ rC1cex := by
  refine ⟨by decide, by decide, by decide, by decide, by decide, by decide, ?_, ?_, by decide⟩
  · have hb : SigmaRequest.encodeBody rC1cex
        = .ok ([78, 88, 48, 49, 48, 48] ++ [49, 48, 48, 48, 48, 48, 48, 48, 48, 48]
            ++ [73, 0, 2, 0, 0, 1, 65]) := by
      simp [SigmaRequest.encodeBody, SigmaRequest.fieldList, rC1cex, IsoFieldData.as_bytes,
        encodeFieldsList, encode_field_to_buf, Tag.encode_to_buf, encode_bcd_x4,
        sernoBytes, decDigits, decDigitsCore_unfold]
    simp only [SigmaRequest.encode, hb]
    norm_num
    simp [asciiLen5, padMin, decDigits, decDigitsCore_unfold, frameC1]
  · have hpre : SigmaRequest.decode frameC1
        = SigmaRequest.decodeLoop [73, 0, 2, 0, 0, 1, 65]
            ⟨[78], [88], [48, 49, 48, 48], 1000000000, [], [], []⟩ := by
      rfl
    have hstep : decode_field_from_cursor [73, 0, 2, 0, 0, 1, 65]
        = .ok (Tag.Iso 2, [65], []) := by decide
    rw [hpre, SigmaRequest.decodeLoop_ok_step _ _ _ _ _ (by decide) hstep,
      SigmaRequest.decodeLoop_nil]
    rfl

def rC1w : SigmaRequest :=
  ⟨[89], [88], [48, 49, 48, 48], 6007040979,
   [(0, [67])],
   [(2, IsoFieldData.String [65, 66]), (3, IsoFieldData.Raw [255])],
   [((19, 2), IsoFieldData.Raw [200])]⟩

def frameC1w : List Nat :=
  [48, 48, 48, 52, 53, 89, 88, 48, 49, 48, 48,
   54, 48, 48, 55, 48, 52, 48, 57, 55, 57,
   84, 0, 0, 0, 0, 1, 67,
   73, 0, 2, 0, 0, 2, 65, 66,
   73, 0, 3, 0, 0, 1, 255,
   83, 0, 25, 2, 0, 1, 200]

theorem C1_request_roundtrip_witness :
    rC1w.WF ∧ SigmaRequest.encode rC1w = .ok frameC1w
    ∧ SigmaRequest.decode frameC1w = .ok rC1w := by
  have hWF : rC1w.WF := by decide
  have henc : SigmaRequest.encode rC1w = .ok frameC1w := by
    have hb : SigmaRequest.encodeBody rC1w
        = .ok ([89, 88, 48, 49, 48, 48] ++ [54, 48, 48, 55, 48, 52, 48, 57, 55, 57]
            ++ ([84, 0, 0, 0, 0, 1, 67] ++ ([73, 0, 2, 0, 0, 2, 65, 66]
              ++ ([73, 0, 3, 0, 0, 1, 255] ++ [83, 0, 25, 2, 0, 1, 200])))) := by
      simp [SigmaRequest.encodeBody, SigmaRequest.fieldList, rC1w, IsoFieldData.as_bytes,
        encodeFieldsList, encode_field_to_buf, Tag.encode_to_buf, encode_bcd_x4,
        encode_bcd_x2, sernoBytes, decDigits, decDigitsCore_unfold, padMin]
    simp only [SigmaRequest.encode, hb]
    norm_num
    simp [asciiLen5, padMin, decDigits, decDigitsCore_unfold, frameC1w]
  exact ⟨hWF, henc, C1_request_roundtrip rC1w frameC1w hWF henc⟩

/-- C7: the `auth_serno` bytes written by both encoders are always 10
bytes: the zero-padded decimal representation for values below `10^10`,
the first 10 decimal digits otherwise; the encoded frame carries them
right after the header fields. -/
theorem C7_auth_serno_field (n : Nat) (r : SigmaRequest) (s : SigmaResponse)
    (f g : List Nat) :
    (sernoBytes n).length = 10
    ∧ (n < 10000000000 → sernoBytes n = padMin 10 48 (decDigits n))
    ∧ (10000000000 ≤ n → sernoBytes n = (decDigits n).take 10)
    ∧ (SigmaRequest.encode r = .ok f →
        (f.drop (5 + r.saf.length + r.source.length + r.mti.length)).take 10
          = sernoBytes r.auth_serno)
    ∧ (SigmaResponse.encode s = .ok g →
        (g.drop (5 + s.mti.length)).take 10 = sernoBytes s.auth_serno) := by
  refine ⟨sernoBytes_length n, fun h => sernoBytes_pad n h, fun h => ?_, ?_, ?_⟩
  · unfold sernoBytes
    rw [if_pos (by omega)]
  · intro henc
    unfold SigmaRequest.encode at henc
    split at henc
    · exact absurd henc (by simp)
    · rename_i body hbody
      split at henc
      · rename_i h5
        simp only [Except.ok.injEq] at henc
        subst henc
        unfold SigmaRequest.encodeBody at hbody
        split at hbody
        · exact absurd hbody (by simp)
        · rename_i fb hfb
          simp only [Except.ok.injEq] at hbody
          subst hbody
          have hre : asciiLen5 (r.saf ++ r.source ++ r.mti ++ sernoBytes r.auth_serno
                ++ fb).length
              ++ (r.saf ++ r.source ++ r.mti ++ sernoBytes r.auth_serno ++ fb)
              = (asciiLen5 (r.saf ++ r.source ++ r.mti ++ sernoBytes r.auth_serno
                  ++ fb).length ++ r.saf ++ r.source ++ r.mti)
                ++ (sernoBytes r.auth_serno ++ fb) := by
            simp [List.append_assoc]
          rw [hre, List.drop_left'
              (by simp only [List.length_append] at h5 ⊢; omega),
            List.take_left' (sernoBytes_length r.auth_serno)]
      · exact absurd henc (by simp)
  · intro henc
    unfold SigmaResponse.encode at henc
    split at henc
    · exact absurd henc (by simp)
    · rename_i body hbody
      split at henc
      · rename_i h5
        simp only [Except.ok.injEq] at henc
        subst henc
        unfold SigmaResponse.encodeBody at hbody
        split at hbody
        · exact absurd hbody (by simp)
        · rename_i reasonF hrf
          split at hbody
          · exact absurd hbody (by simp)
          · rename_i feesF hff
            split at hbody
            · exact absurd hbody (by simp)
            · rename_i adataF haf
              simp only [Except.ok.injEq] at hbody
              subst hbody
              have hre : asciiLen5 (s.mti ++ sernoBytes s.auth_serno ++ reasonF
                    ++ feesF ++ adataF).length
                  ++ (s.mti ++ sernoBytes s.auth_serno ++ reasonF ++ feesF ++ adataF)
                  = (asciiLen5 (s.mti ++ sernoBytes s.auth_serno ++ reasonF
                      ++ feesF ++ adataF).length ++ s.mti)
                    ++ (sernoBytes s.auth_serno ++ (reasonF ++ (feesF ++ adataF))) := by
                simp [List.append_assoc]
              rw [hre, List.drop_left'
                  (by simp only [List.length_append] at h5 ⊢; omega),
                List.take_left' (sernoBytes_length s.auth_serno)]
      · exact absurd henc (by simp)

def rC7 : SigmaRequest := ⟨[89], [88], [48, 49, 48, 48], 7, [], [], []⟩

def frameC7 : List Nat :=
  [48, 48, 48, 49, 54, 89, 88, 48, 49, 48, 48,
   48, 48, 48, 48, 48, 48, 48, 48, 48, 55]

def sC7 : SigmaResponse := ⟨[48, 49, 49, 48], 5, 0, [], none⟩

def frameC7r : List Nat :=
  [48, 48, 48, 50, 49, 48, 49, 49, 48,
   48, 48, 48, 48, 48, 48, 48, 48, 48, 53, 84, 0, 49, 0, 0, 1, 48]

theorem C7_auth_serno_field_witness :
    sernoBytes 42 = padMin 10 48 (decDigits 42)
    ∧ sernoBytes 10000000001 = (decDigits 10000000001).take 10
    ∧ (frameC7.drop 11).take 10 = sernoBytes 7
    ∧ (frameC7r.drop 9).take 10 = sernoBytes 5 := by
  have hb7 : SigmaRequest.encodeBody rC7
      = .ok ([89, 88, 48, 49, 48, 48] ++ [48, 48, 48, 48, 48, 48, 48, 48, 48, 55]) := by
    simp [SigmaRequest.encodeBody, SigmaRequest.fieldList, rC7, encodeFieldsList,
      sernoBytes, decDigits, decDigitsCore_unfold, padMin]
  have henc7 : SigmaRequest.encode rC7 = .ok frameC7 := by
    simp only [SigmaRequest.encode, hb7]
    norm_num
    simp [asciiLen5, padMin, decDigits, decDigitsCore_unfold, frameC7]
  have hb7r : SigmaResponse.encodeBody sC7
      = .ok ([48, 49, 49, 48] ++ [48, 48, 48, 48, 48, 48, 48, 48, 48, 53]
          ++ [84, 0, 49, 0, 0, 1, 48] ++ [] ++ []) := by
    simp [SigmaResponse.encodeBody, sC7, encodeFeesList, encode_field_to_buf,
      Tag.encode_to_buf, encode_bcd_x4, encode_bcd_x2, sernoBytes, decDigits,
      decDigitsCore_unfold, padMin]
  have henc7r : SigmaResponse.encode sC7 = .ok frameC7r := by
    simp only [SigmaResponse.encode, hb7r]
    norm_num
    simp [asciiLen5, padMin, decDigits, decDigitsCore_unfold, frameC7r]
  exact ⟨(C7_auth_serno_field 42 rC7 sC7 frameC7 frameC7r).2.1 (by norm_num),
    (C7_auth_serno_field 10000000001 rC7 sC7 frameC7 frameC7r).2.2.1 (by norm_num),
    (C7_auth_serno_field 42 rC7 sC7 frameC7 frameC7r).2.2.2.1 henc7,
    (C7_auth_serno_field 42 rC7 sC7 frameC7 frameC7r).2.2.2.2 henc7r⟩

/-- C9: each setter re-runs its validator; on success the field is
replaced and nothing else changes, on failure the error is returned and
the request is left exactly as it was. -/
theorem C9_setter_validation (r : SigmaRequest) (v : List Nat) :
    ((validate_saf v = .ok ()
        ∧ SigmaRequest.set_saf r v = (.ok (), { r with saf := v }))
      ∨ (∃ e, validate_saf v = .error e ∧ SigmaRequest.set_saf r v = (.error e, r)))
    ∧ ((validate_source v = .ok ()
        ∧ SigmaRequest.set_source r v = (.ok (), { r with source := v }))
      ∨ (∃ e, validate_source v = .error e ∧ SigmaRequest.set_source r v = (.error e, r)))
    ∧ ((validate_mti v = .ok ()
        ∧ SigmaRequest.set_mti r v = (.ok (), { r with mti := v }))
      ∨ (∃ e, validate_mti v = .error e ∧ SigmaRequest.set_mti r v = (.error e, r))) := by
  refine ⟨?_, ?_, ?_⟩
  · rcases hv : validate_saf v with e | u
    · exact Or.inr ⟨e, rfl, by simp [SigmaRequest.set_saf, hv]⟩
    · cases u
      exact Or.inl ⟨rfl, by simp [SigmaRequest.set_saf, hv]⟩
  · rcases hv : validate_source v with e | u
    · exact Or.inr ⟨e, rfl, by simp [SigmaRequest.set_source, hv]⟩
    · cases u
      exact Or.inl ⟨rfl, by simp [SigmaRequest.set_source, hv]⟩
  · rcases hv : validate_mti v with e | u
    · exact Or.inr ⟨e, rfl, by simp [SigmaRequest.set_mti, hv]⟩
    · cases u
      exact Or.inl ⟨rfl, by simp [SigmaRequest.set_mti, hv]⟩

theorem asciiLen5_length_iff (n : Nat) : (asciiLen5 n).length = 5 ↔ n ≤ 99999 := by
  unfold asciiLen5
  rw [padMin_length]
  constructor
  · intro h
    by_contra hc
    have hge := decDigits_length_ge 5 n (by norm_num; omega)
    omega
  · intro h
    have hle := decDigits_length_le n 5 (by norm_num) (by norm_num; omega)
    omega

theorem encodeBody_resp_some (mti : List Nat) (serno reason : Nat) (fees : List FeeData)
    (ad rf ff af : List Nat)
    (h1 : encode_field_to_buf (Tag.Regular 31) (decDigits reason) = .ok rf)
    (h2 : encodeFeesList fees = .ok ff)
    (h3 : encode_field_to_buf (Tag.Regular 48) ad = .ok af) :
    SigmaResponse.encodeBody ⟨mti, serno, reason, fees, some ad⟩
      = .ok (mti ++ sernoBytes serno ++ rf ++ ff ++ af) := by
  simp [SigmaResponse.encodeBody, h1, h2, h3]

/-- C10: both encoders return an `Ok` frame, with a well-formed 5-byte
ASCII length prefix, exactly when the encoded body is at most 99999
bytes; a longer body makes `format!("{:05}", msg_len)` longer than the
5-byte slice, so the prefix copy is out of bounds and no `Ok` frame is
returned. -/
theorem C10_length_limit (r : SigmaRequest) (s : SigmaResponse) (body bodyR : List Nat) :
    (SigmaRequest.encodeBody r = .ok body →
      (body.length ≤ 99999 →
        SigmaRequest.encode r = .ok (asciiLen5 body.length ++ body)
          ∧ (asciiLen5 body.length).length = 5)
      ∧ (99999 < body.length → SigmaRequest.encode r = .error .oob))
    ∧ (SigmaResponse.encodeBody s = .ok bodyR →
      (bodyR.length ≤ 99999 →
        SigmaResponse.encode s = .ok (asciiLen5 bodyR.length ++ bodyR)
          ∧ (asciiLen5 bodyR.length).length = 5)
      ∧ (99999 < bodyR.length → SigmaResponse.encode s = .error .oob)) := by
  constructor
  · intro hb
    constructor
    · intro hle
      unfold SigmaRequest.encode
      rw [hb]
      simp only []
      rw [if_pos ((asciiLen5_length_iff body.length).mpr hle)]
      exact ⟨rfl, (asciiLen5_length_iff body.length).mpr hle⟩
    · intro hgt
      unfold SigmaRequest.encode
      rw [hb]
      simp only []
      rw [if_neg (by rw [asciiLen5_length_iff]; omega)]
  · intro hb
    constructor
    · intro hle
      unfold SigmaResponse.encode
      rw [hb]
      simp only []
      rw [if_pos ((asciiLen5_length_iff bodyR.length).mpr hle)]
      exact ⟨rfl, (asciiLen5_length_iff bodyR.length).mpr hle⟩
    · intro hgt
      unfold SigmaResponse.encode
      rw [hb]
      simp only []
      rw [if_neg (by rw [asciiLen5_length_iff]; omega)]

def rC10 : SigmaRequest := ⟨[89], [88], [48, 49, 48, 48], 3, [], [], []⟩

def bodyC10 : List Nat :=
  [89, 88, 48, 49, 48, 48] ++ [48, 48, 48, 48, 48, 48, 48, 48, 48, 51]

def sC10 : SigmaResponse := ⟨[48, 49, 48, 48], 0, 0, [], some (List.replicate 136072 48)⟩

def bodyC10r : List Nat :=
  [48, 49, 48, 48] ++ sernoBytes 0 ++ [84, 0, 49, 0, 0, 1, 48] ++ []
    ++ ([84, 0, 72, 0] ++ [80, 0] ++ List.replicate 136072 48)

theorem C10_length_limit_witness :
    SigmaRequest.encode rC10 = .ok (asciiLen5 bodyC10.length ++ bodyC10)
    ∧ SigmaResponse.encode sC10 = .error .oob := by
  have h1 : SigmaRequest.encodeBody rC10 = .ok bodyC10 := by
    simp [SigmaRequest.encodeBody, SigmaRequest.fieldList, rC10, encodeFieldsList,
      sernoBytes, decDigits, decDigitsCore_unfold, padMin, bodyC10]
  have hd0 : decDigits 0 = [48] := by simp [decDigits, decDigitsCore_unfold]
  have hreason : encode_field_to_buf (Tag.Regular 31) (decDigits 0)
      = .ok [84, 0, 49, 0, 0, 1, 48] := by
    rw [hd0]
    decide
  have hadata : encode_field_to_buf (Tag.Regular 48) (List.replicate 136072 48)
      = .ok ([84, 0, 72, 0] ++ [80, 0] ++ List.replicate 136072 48) :=
    encode_field_len_mod _ _ _ _ (by decide) (by rw [List.length_replicate]; decide)
  have h2 : SigmaResponse.encodeBody sC10 = .ok bodyC10r :=
    encodeBody_resp_some [48, 49, 48, 48] 0 0 [] (List.replicate 136072 48) _ _ _
      hreason rfl hadata
  have h4 : 99999 < bodyC10r.length := by
    unfold bodyC10r
    simp only [List.length_append, List.length_replicate, sernoBytes_length,
      List.length_cons, List.length_nil]
    omega
  exact ⟨(((C10_length_limit rC10 sC10 bodyC10 bodyC10r).1 h1).1 (by decide)).1,
    ((C10_length_limit rC10 sC10 bodyC10 bodyC10r).2 h2).2 h4⟩
